/-
Verification development for the HA-iOS-NextAlarm Home Assistant integration.

The Python sources (`custom_components/ha_ios_nextalarm/helpers.py`,
`custom_components/ha_ios_nextalarm/coordinator.py`, plus the vendored
`homeassistant.util.dt` shim) are shallowly embedded below:

* Python `datetime` objects are modelled by `PyDateTime`: civil fields plus an
  optional fixed UTC offset in microseconds (`tz = none` models a naive
  datetime).  Aware datetimes compare by their absolute instant, which
  `toInstant` computes through the standard days-from-civil algorithm.
* `tzinfo` arguments are modelled by fixed UTC offsets (an `Int` number of
  microseconds).  `datetime.astimezone` and the integration's `_localize`
  helper become instant-preserving representation changes.
* Python `dict` values are modelled by association lists in insertion order;
  updating an existing key replaces its value in place, a new key is appended,
  exactly like CPython dicts.  Dynamically typed storage/JSON payloads are
  modelled by the inductive `PyVal`.
* String manipulation (`strip`, `splitlines`, `upper`, `casefold`,
  `unicodedata` normalisation) is modelled character-wise over `String.data`
  for the character repertoire the integration actually handles (ASCII plus
  the Latin letters of the built-in locale tables); this is noted at each
  definition.
-/
import Mathlib

namespace NextAlarm

/-! ### Python string primitives (modelled over `List Char`) -/

/-- Characters treated as whitespace by Python's `str.strip()`
(ASCII whitespace; exotic Unicode space characters are outside the modelled
repertoire). -/
def isPySpace (c : Char) : Bool :=
  c == ' ' || c == '\t' || c == '\n' || c == '\r' || c == '\x0b' || c == '\x0c'

/-- `str.strip()` on a character list. -/
def pyStripL (l : List Char) : List Char :=
  ((l.dropWhile isPySpace).reverse.dropWhile isPySpace).reverse

/-- Python `str.strip()`. -/
def pyStrip (s : String) : String :=
  ⟨pyStripL s.data⟩

/-- Helper for `str.splitlines()`: accumulates the current line (reversed). -/
def splitlinesAux : List Char → List Char → List (List Char)
  | [], acc => if acc.isEmpty then [] else [acc.reverse]
  | '\r' :: '\n' :: rest, acc => acc.reverse :: splitlinesAux rest []
  | '\r' :: rest, acc => acc.reverse :: splitlinesAux rest []
  | '\n' :: rest, acc => acc.reverse :: splitlinesAux rest []
  | c :: rest, acc => splitlinesAux rest (c :: acc)

/-- Python `str.splitlines()` (modelled for the `\n`, `\r`, `\r\n` line breaks;
the integration's inputs contain no other Unicode line separators). -/
def pySplitlines (s : String) : List String :=
  (splitlinesAux s.data []).map fun l => ⟨l⟩

/-- Python `str.upper()`, character-wise ASCII uppercasing (sufficient for the
`"AM"`/`"PM"` substring detection the integration performs). -/
def pyUpper (s : String) : String :=
  ⟨s.data.map Char.toUpper⟩

/-- Whether the first list is an initial segment of the second. -/
def isPrefixL : List Char → List Char → Bool
  | [], _ => true
  | _ :: _, [] => false
  | a :: as, b :: bs => a == b && isPrefixL as bs

/-- Substring search over character lists. -/
def subSearch (needle : List Char) : List Char → Bool
  | [] => needle.isEmpty
  | c :: rest => isPrefixL needle (c :: rest) || subSearch needle rest

/-- Substring containment, `needle in haystack` on Python strings. -/
def pyContains (haystack needle : String) : Bool :=
  subSearch needle.data haystack.data

/-- Lexicographic `≤` on character lists by code point. -/
def listLeChars : List Char → List Char → Bool
  | [], _ => true
  | _ :: _, [] => false
  | a :: as, b :: bs =>
    if a.toNat < b.toNat then true
    else if b.toNat < a.toNat then false
    else listLeChars as bs

/-- Python's `≤` on strings: lexicographic comparison by code point (the
order `sorted()` uses). -/
def pyStrLe (a b : String) : Bool :=
  listLeChars a.data b.data

/-- Insert into a sorted list (ascending by `le`). -/
def insertSortedBy {α : Type} (le : α → α → Bool) (a : α) : List α → List α
  | [] => [a]
  | b :: l => if le a b then a :: b :: l else b :: insertSortedBy le a l

/-- Insertion sort by a boolean `≤`, modelling Python's ascending
`sorted()`. -/
def insertionSortBy {α : Type} (le : α → α → Bool) : List α → List α
  | [] => []
  | a :: l => insertSortedBy le a (insertionSortBy le l)

/-! ### Calendar arithmetic

Standard days-from-civil / civil-from-days algorithms on the proleptic
Gregorian calendar (the calendar used by Python `datetime`/`date`).
Day number 0 is 1970-01-01 (a Thursday). -/

/-- Gregorian leap-year test, as used by Python's `calendar`/`datetime`. -/
def isLeap (y : Int) : Bool :=
  y.emod 4 == 0 && (y.emod 100 != 0 || y.emod 400 == 0)

/-- Length of a month in the Gregorian calendar. -/
def daysInMonth (y m : Int) : Int :=
  if m = 2 then (if isLeap y then 29 else 28)
  else if m = 4 ∨ m = 6 ∨ m = 9 ∨ m = 11 then 30
  else 31

/-- Days since 1970-01-01 of the civil date `y-m-d`. -/
def daysFromCivil (y m d : Int) : Int :=
  let y' : Int := if m ≤ 2 then y - 1 else y
  let era : Int := y'.fdiv 400
  let yoe : Int := y' - era * 400
  let mp : Int := if 2 < m then m - 3 else m + 9
  let doy : Int := (153 * mp + 2).fdiv 5 + d - 1
  let doe : Int := yoe * 365 + yoe.fdiv 4 - yoe.fdiv 100 + doy
  era * 146097 + doe - 719468

/-- Civil date `(y, m, d)` of a day number (inverse of `daysFromCivil`). -/
def civilFromDays (z0 : Int) : Int × Int × Int :=
  let z : Int := z0 + 719468
  let era : Int := z.fdiv 146097
  let doe : Int := z - era * 146097
  let yoe : Int := (doe - doe.fdiv 1460 + doe.fdiv 36524 - doe.fdiv 146096).fdiv 365
  let y : Int := yoe + era * 400
  let doy : Int := doe - (365 * yoe + yoe.fdiv 4 - yoe.fdiv 100)
  let mp : Int := (5 * doy + 2).fdiv 153
  let d : Int := doy - (153 * mp + 2).fdiv 5 + 1
  let m : Int := if mp < 10 then mp + 3 else mp - 9
  (if m ≤ 2 then y + 1 else y, m, d)

/-- Microseconds per day. -/
def usPerDay : Int := 86400000000

/-- Microseconds per hour. -/
def usPerHour : Int := 3600000000

/-- Microseconds per minute. -/
def usPerMinute : Int := 60000000

/-- Microseconds per second. -/
def usPerSecond : Int := 1000000

/-! ### The `datetime` model -/

/-- Model of a Python `datetime`: civil fields plus an optional fixed UTC
offset in microseconds (`tz = none` models a naive datetime). -/
structure PyDateTime where
  year : Int
  month : Int
  day : Int
  hour : Int
  minute : Int
  second : Int
  microsecond : Int
  tz : Option Int
deriving DecidableEq, Repr

/-- Microseconds into the day represented by the time fields. -/
def PyDateTime.timeUs (d : PyDateTime) : Int :=
  d.hour * usPerHour + d.minute * usPerMinute + d.second * usPerSecond +
    d.microsecond

/-- Absolute instant (microseconds since the Unix epoch).  For aware datetimes
this is the value Python's datetime comparison and subtraction operate on; a
naive datetime is given its wall-clock value (offset 0), matching how the
vendored `dt_util.parse_datetime` shim treats naive values as UTC. -/
def PyDateTime.toInstant (d : PyDateTime) : Int :=
  daysFromCivil d.year d.month d.day * usPerDay + d.timeUs - d.tz.getD 0

/-- The aware datetime representing instant `i` at fixed UTC offset `tz`
(model of constructing a datetime in a given timezone). -/
def ofInstant (i : Int) (tz : Int) : PyDateTime :=
  let loc : Int := i + tz
  let dayIdx : Int := loc.fdiv usPerDay
  let tod : Int := loc - dayIdx * usPerDay
  let c := civilFromDays dayIdx
  { year := c.1, month := c.2.1, day := c.2.2
    hour := tod.fdiv usPerHour
    minute := (tod.fdiv usPerMinute).emod 60
    second := (tod.fdiv usPerSecond).emod 60
    microsecond := tod.emod usPerSecond
    tz := some tz }

/-- `datetime.astimezone(tz)` for aware datetimes: same instant, represented
at fixed UTC offset `tz`. -/
def astimezoneTo (d : PyDateTime) (tz : Int) : PyDateTime :=
  ofInstant d.toInstant tz

/-- The integration's `_localize`: attach timezone `tz` to a naive datetime,
keeping the wall-clock fields (for fixed-offset timezones both branches of the
Python helper coincide). -/
def localize (d : PyDateTime) (tz : Int) : PyDateTime :=
  { d with tz := some tz }

/-! ### Dynamically-typed Python values and dictionaries -/

/-- Model of the dynamically typed Python/JSON values the integration passes
around (event payloads, storage snapshots, parsed custom-map JSON).  Floats do
not occur in the integration's own data and are outside the model. -/
inductive PyVal where
  | pnone
  | pbool (b : Bool)
  | pint (n : Int)
  | pstr (s : String)
  | pdt (d : PyDateTime)
  | plist (xs : List PyVal)
  | pdict (xs : List (String × PyVal))

/-- Python dictionaries are modelled as association lists in insertion order
(keys are strings, as everywhere in the integration's payloads). -/
abbrev PyDict (β : Type) : Type := List (String × β)

/-- `dict.get` / `dict.__getitem__`: first binding wins (bindings are unique
for lists built through `dset`, like CPython dicts). -/
def dget {β : Type} : PyDict β → String → Option β
  | [], _ => none
  | (k, v) :: rest, q => if k = q then some v else dget rest q

/-- `dict.__setitem__`: replace in place if the key exists, else append --
exactly CPython's insertion-order semantics. -/
def dset {β : Type} : PyDict β → String → β → PyDict β
  | [], q, w => [(q, w)]
  | (k, v) :: rest, q, w => if k = q then (q, w) :: rest else (k, v) :: dset rest q w

/-- The keys of a dictionary, in iteration order. -/
def dkeys {β : Type} (d : PyDict β) : List String :=
  d.map Prod.fst

/-- `key in dict`. -/
def dHasKey {β : Type} (d : PyDict β) (k : String) : Bool :=
  (dget d k).isSome

/-- `value is None`. -/
def PyVal.isNone : PyVal → Bool
  | .pnone => true
  | _ => false

/-- Python truthiness (`bool(value)`) for the modelled values. -/
def pyFalsy : PyVal → Bool
  | .pnone => true
  | .pbool b => !b
  | .pint n => n == 0
  | .pstr s => s.data.isEmpty
  | .pdt _ => false
  | .plist xs => xs.isEmpty
  | .pdict xs => xs.isEmpty

/-! ### Decimal digits -/

/-- The ASCII digit character for `d % 10`-style values (`d ≥ 9` renders as
`'9'`; callers only use `d ≤ 9`). -/
def digitChar : Nat → Char
  | 0 => '0'
  | 1 => '1'
  | 2 => '2'
  | 3 => '3'
  | 4 => '4'
  | 5 => '5'
  | 6 => '6'
  | 7 => '7'
  | 8 => '8'
  | _ => '9'

/-- Numeric value of a digit character. -/
def charDigitVal (c : Char) : Nat :=
  c.toNat - 48

/-- Two-digit zero-padded decimal rendering (`"%02d"`). -/
def pad2 (n : Nat) : List Char :=
  [digitChar (n / 10), digitChar (n % 10)]

/-- Four-digit zero-padded decimal rendering (`"%04d"`). -/
def pad4 (n : Nat) : List Char :=
  [digitChar (n / 1000), digitChar (n / 100 % 10), digitChar (n / 10 % 10),
    digitChar (n % 10)]

/-- Six-digit zero-padded decimal rendering (`"%06d"`). -/
def pad6 (n : Nat) : List Char :=
  [digitChar (n / 100000), digitChar (n / 10000 % 10), digitChar (n / 1000 % 10),
    digitChar (n / 100 % 10), digitChar (n / 10 % 10), digitChar (n % 10)]

/-- Read exactly `k` ASCII digits, accumulating their value. -/
def readDigitsAux : Nat → Nat → List Char → Option (Nat × List Char)
  | 0, acc, l => some (acc, l)
  | k + 1, acc, c :: l =>
    if c.isDigit then readDigitsAux k (acc * 10 + charDigitVal c) l else none
  | _ + 1, _, [] => none

/-- Read exactly `k` ASCII digits from the front of a character list. -/
def readDigits (k : Nat) (l : List Char) : Option (Nat × List Char) :=
  readDigitsAux k 0 l

/-- Value of a list of digit characters. -/
def digitsVal (l : List Char) : Nat :=
  l.foldl (fun a c => a * 10 + charDigitVal c) 0

/-- Model of Python `int(string)`: strip whitespace, optional sign, ASCII
decimal digits (underscore separators and non-ASCII digits are outside the
modelled repertoire). -/
def parsePyIntStr (s : String) : Option Int :=
  let core : List Char → Option Nat := fun l =>
    if l.isEmpty then none
    else if l.all Char.isDigit then some (digitsVal l) else none
  match pyStripL s.data with
  | '+' :: rest => (core rest).map Int.ofNat
  | '-' :: rest => (core rest).map fun n => -(n : Int)
  | l => (core l).map Int.ofNat

/-- Model of Python `int(value)` coercion on the dynamic values the custom
weekday map can contain (`TypeError`/`ValueError` become `none`). -/
def pyToInt : PyVal → Option Int
  | .pint n => some n
  | .pbool b => some (if b then 1 else 0)
  | .pstr s => parsePyIntStr s
  | _ => none

/-! ### `datetime.isoformat` -/

/-- Rendering of a UTC offset as `datetime.isoformat` does (`±HH:MM`; the
integration only produces whole-minute offsets, for which this is exact). -/
def offsetChars : Option Int → List Char
  | none => []
  | some off =>
    let sign : Char := if off < 0 then '-' else '+'
    let totalMin : Nat := off.natAbs / 60000000
    sign :: (pad2 (totalMin / 60) ++ ':' :: pad2 (totalMin % 60))

/-- `datetime.isoformat(sep)` on the modelled datetime: date, separator, time,
fractional seconds only when the microsecond field is nonzero, then the offset
for aware values. -/
def isoformatL (d : PyDateTime) (sep : Char) : List Char :=
  pad4 d.year.toNat ++ '-' :: (pad2 d.month.toNat ++ '-' :: (pad2 d.day.toNat ++
    sep :: (pad2 d.hour.toNat ++ ':' :: (pad2 d.minute.toNat ++ ':' ::
      (pad2 d.second.toNat ++
        (if d.microsecond = 0 then [] else '.' :: pad6 d.microsecond.toNat) ++
        offsetChars d.tz)))))

/-- `datetime.isoformat()`. -/
def isoformat (d : PyDateTime) : String :=
  ⟨isoformatL d 'T'⟩

/-- `str(value)` on the modelled dynamic values.  `str(datetime)` is the
isoformat with a space separator; the reprs of lists/dicts are abbreviated
(they never parse as datetimes either way, which is all the integration
observes). -/
def pyValStr : PyVal → String
  | .pnone => "None"
  | .pbool true => "True"
  | .pbool false => "False"
  | .pint n => toString n
  | .pstr s => s
  | .pdt d => ⟨isoformatL d ' '⟩
  | .plist _ => "[...]"
  | .pdict _ => "\x7b...\x7d"

/-! ### `datetime.fromisoformat` (extended ISO-8601 subset)

Model of CPython 3.11 `datetime.fromisoformat` restricted to the extended
format `YYYY-MM-DD[<sep>HH[:MM[:SS[.ffffff]]]][Z|±HH:MM[:SS]]` (any single
separator character, `.` or `,` before the fraction, more than six fractional
digits truncated).  The basic formats without separators are outside the
model; every string the integration itself produces or round-trips is in the
modelled subset. -/

/-- Expect a specific character at the head. -/
def expectChar (c : Char) : List Char → Option (List Char)
  | x :: rest => if x = c then some rest else none
  | [] => none

/-- Parse a `HH:MM[:SS]` numeric offset (microseconds). -/
def parseOffsetHM (l : List Char) : Option Int := do
  let (oh, r1) ← readDigits 2 l
  let r2 ← expectChar ':' r1
  let (om, r3) ← readDigits 2 r2
  match r3 with
  | [] =>
    if oh ≤ 23 ∧ om ≤ 59 then some ((oh * 3600 + om * 60 : Nat) * 1000000) else none
  | ':' :: r4 => do
    let (os, r5) ← readDigits 2 r4
    if r5.isEmpty ∧ oh ≤ 23 ∧ om ≤ 59 ∧ os ≤ 59 then
      some ((oh * 3600 + om * 60 + os : Nat) * 1000000)
    else none
  | _ => none

/-- Parse the timezone designator tail: empty (naive), `Z`, or `±HH:MM[:SS]`. -/
def parseTzTail : List Char → Option (Option Int)
  | [] => some none
  | ['Z'] => some (some 0)
  | '+' :: r => (parseOffsetHM r).map some
  | '-' :: r => (parseOffsetHM r).map fun o => some (-o)
  | _ => none

/-- Build the parsed datetime from numeric components. -/
def mkDT (y mo d h mi s us : Nat) (tzo : Option Int) : PyDateTime :=
  { year := y, month := mo, day := d, hour := h, minute := mi, second := s,
    microsecond := us, tz := tzo }

/-- Parse `[.ffffff]`-style fractional seconds (at least one digit, truncated
to microsecond precision) followed by the timezone tail. -/
def parseFracTail (y mo d h mi s : Nat) (l : List Char) : Option PyDateTime :=
  let ds := l.takeWhile Char.isDigit
  let r := l.dropWhile Char.isDigit
  if ds.isEmpty then none
  else
    let t := ds.take 6
    let us := digitsVal t * 10 ^ (6 - t.length)
    (parseTzTail r).map (mkDT y mo d h mi s us)

/-- Parse the time-of-day (with optional fraction and offset) after the
date separator. -/
def parseTimePart (y mo d : Nat) (l : List Char) : Option PyDateTime := do
  let (h, r1) ← readDigits 2 l
  if h ≤ 23 then
    match r1 with
    | ':' :: r2 => do
      let (mi, r3) ← readDigits 2 r2
      if mi ≤ 59 then
        match r3 with
        | ':' :: r4 => do
          let (s, r5) ← readDigits 2 r4
          if s ≤ 59 then
            match r5 with
            | '.' :: r6 => parseFracTail y mo d h mi s r6
            | ',' :: r6 => parseFracTail y mo d h mi s r6
            | r6 => do
              let tzo ← parseTzTail r6
              pure (mkDT y mo d h mi s 0 tzo)
          else none
        | r4 => do
          let tzo ← parseTzTail r4
          pure (mkDT y mo d h mi 0 0 tzo)
      else none
    | r2 => do
      let tzo ← parseTzTail r2
      pure (mkDT y mo d h 0 0 0 tzo)
  else none

/-- `datetime.fromisoformat` on a character list. -/
def fromisoParse (l : List Char) : Option PyDateTime := do
  let (y, r1) ← readDigits 4 l
  let r2 ← expectChar '-' r1
  let (mo, r3) ← readDigits 2 r2
  let r4 ← expectChar '-' r3
  let (d, r5) ← readDigits 2 r4
  if 1 ≤ y ∧ 1 ≤ mo ∧ mo ≤ 12 ∧ 1 ≤ d ∧ (d : Int) ≤ daysInMonth (y : Int) (mo : Int) then
    match r5 with
    | [] => some (mkDT y mo d 0 0 0 0 none)
    | _sep :: r6 => parseTimePart y mo d r6
  else none

/-- Model of the vendored `homeassistant.util.dt.parse_datetime` shim
(`src/homeassistant/util/dt.py`): `None` passes through, datetimes are
returned as-is with UTC attached when naive, strings are stripped, a trailing
`"Z"` is rewritten to `"+00:00"`, parsed with `fromisoformat`, and a naive
parse gets UTC attached; every other type yields `None`. -/
def dtutil_parse_datetime : PyVal → Option PyDateTime
  | .pnone => none
  | .pdt v => some (if v.tz.isSome then v else { v with tz := some 0 })
  | .pstr s =>
    let text := pyStripL s.data
    let text2 : List Char :=
      if text.getLast? = some 'Z' then text.dropLast ++ "+00:00".data else text
    match fromisoParse text2 with
    | none => none
    | some dtv => some (if dtv.tz.isSome then dtv else { dtv with tz := some 0 })
  | _ => none

/-! ### `datetime.strptime` for the two fixed formats

`strptime` compiles each directive to a regular expression; for the numeric
directives used here the deterministic equivalent is: take the maximal digit
run (which must have length 1 or 2), whose value must lie in the directive's
range, after which the following literal must match (a longer digit run can
never succeed because backtracking to one digit leaves a digit where a
non-digit literal is required).  `%Y` is exactly four digits, a space in the
format matches one or more whitespace characters, and the whole input must be
consumed. -/

/-- A 1-2 digit numeric directive with an inclusive value range. -/
def read12 (lo hi : Nat) (l : List Char) : Option (Nat × List Char) :=
  let ds := l.takeWhile Char.isDigit
  if ds.length = 1 ∨ ds.length = 2 then
    let v := digitsVal ds
    if lo ≤ v ∧ v ≤ hi then some (v, l.dropWhile Char.isDigit) else none
  else none

/-- Whitespace in a `strptime` format: one or more whitespace characters. -/
def skipWs1 : List Char → Option (List Char)
  | c :: rest => if isPySpace c then some (rest.dropWhile isPySpace) else none
  | [] => none

/-- `datetime.strptime(text, "%d.%m.%Y %H:%M")` (day.month.year, 24-hour). -/
def strptimeDMY (s : String) : Option PyDateTime := do
  let (d, r1) ← read12 1 31 s.data
  let r2 ← expectChar '.' r1
  let (mo, r3) ← read12 1 12 r2
  let r4 ← expectChar '.' r3
  let (y, r5) ← readDigits 4 r4
  let r6 ← skipWs1 r5
  let (h, r7) ← read12 0 23 r6
  let r8 ← expectChar ':' r7
  let (mi, r9) ← read12 0 59 r8
  if r9.isEmpty ∧ 1 ≤ y ∧ (d : Int) ≤ daysInMonth (y : Int) (mo : Int) then
    some (mkDT y mo d h mi 0 0 none)
  else none

/-- The `%p` directive: `AM`/`PM`, case-insensitively, ending the input;
returns whether the meridiem is PM. -/
def parseMeridiem : List Char → Option Bool
  | [a, m] =>
    if (a == 'A' || a == 'a') && (m == 'M' || m == 'm') then some false
    else if (a == 'P' || a == 'p') && (m == 'M' || m == 'm') then some true
    else none
  | _ => none

/-- `datetime.strptime(text, "%m/%d/%Y %I:%M %p")` (month/day/year, 12-hour);
`12 AM` maps to hour 0 and `12 PM` to hour 12, as in `_strptime`. -/
def strptimeMDY12 (s : String) : Option PyDateTime := do
  let (mo, r1) ← read12 1 12 s.data
  let r2 ← expectChar '/' r1
  let (d, r3) ← read12 1 31 r2
  let r4 ← expectChar '/' r3
  let (y, r5) ← readDigits 4 r4
  let r6 ← skipWs1 r5
  let (h12, r7) ← read12 1 12 r6
  let r8 ← expectChar ':' r7
  let (mi, r9) ← read12 0 59 r8
  let r10 ← skipWs1 r9
  let pm ← parseMeridiem r10
  if 1 ≤ y ∧ (d : Int) ≤ daysInMonth (y : Int) (mo : Int) then
    some (mkDT y mo d (if pm then h12 % 12 + 12 else h12 % 12) mi 0 0 none)
  else none

/-! ### `helpers.parse_alarm_datetime` -/

/-- The errors `parse_alarm_datetime` raises (`ValueError` messages
`"missing datetime value"` and `"unsupported datetime format: <text>"`, the
latter carrying the stripped input text). -/
inductive ParseErr where
  | missingValue
  | unsupportedFormat (text : String)
deriving DecidableEq, Repr

/-- `helpers.parse_alarm_datetime(value, tzinfo)`: strip, fail on empty,
try `dt_util.parse_datetime`, then the `%d.%m.%Y %H:%M` format, then -- only
when the uppercased text contains `"AM"` or `"PM"` -- the
`%m/%d/%Y %I:%M %p` format; attach the supplied timezone to a naive result
(wall-clock localization) and convert the final value into the supplied
timezone. -/
def parse_alarm_datetime (value : String) (tz : Int) : Except ParseErr PyDateTime :=
  let text := pyStrip value
  if text.data.isEmpty then .error .missingValue
  else
    let parsed? : Option PyDateTime :=
      match dtutil_parse_datetime (.pstr text) with
      | some p => some p
      | none =>
        match strptimeDMY text with
        | some p => some p
        | none =>
          let upper := pyUpper text
          if pyContains upper "AM" || pyContains upper "PM" then strptimeMDY12 text
          else none
    match parsed? with
    | none => .error (.unsupportedFormat text)
    | some parsed =>
      let aware := if parsed.tz.isSome then parsed else localize parsed tz
      .ok (astimezoneTo aware tz)

/-! ### `helpers.normalize_day_key`

`unicodedata.normalize("NFKD", ·)` followed by stripping combining marks,
removing spaces and hyphens, case folding and stripping.  The character-wise
decomposition/folding tables below cover ASCII plus the Polish letters of the
built-in locale tables (note that `ł`/`Ł` have no canonical decomposition, so
they survive, exactly as in CPython). -/

/-- Character-wise NFKD decomposition for the modelled repertoire. -/
def charDecompose : Char → List Char
  | 'ą' => ['a', '̨']
  | 'Ą' => ['A', '̨']
  | 'ć' => ['c', '́']
  | 'Ć' => ['C', '́']
  | 'ę' => ['e', '̨']
  | 'Ę' => ['E', '̨']
  | 'ń' => ['n', '́']
  | 'Ń' => ['N', '́']
  | 'ó' => ['o', '́']
  | 'Ó' => ['O', '́']
  | 'ś' => ['s', '́']
  | 'Ś' => ['S', '́']
  | 'ź' => ['z', '́']
  | 'Ź' => ['Z', '́']
  | 'ż' => ['z', '̇']
  | 'Ż' => ['Z', '̇']
  | c => [c]

/-- Combining-mark test (`unicodedata.combining(ch)` nonzero); the combining
diacritical marks block suffices for the modelled repertoire. -/
def isCombining (c : Char) : Bool :=
  0x300 ≤ c.toNat && c.toNat ≤ 0x36F

/-- Character-wise `str.casefold()` for the modelled repertoire (ASCII
lowercasing plus `Ł → ł`). -/
def pyCasefoldChar (c : Char) : Char :=
  if c == 'Ł' then 'ł' else c.toLower

/-- `str.casefold()` on the modelled repertoire. -/
def pyCasefold (s : String) : String :=
  ⟨s.data.map pyCasefoldChar⟩

/-- `helpers.normalize_day_key(value)`. -/
def normalize_day_key (value : String) : String :=
  let decomposed := (value.data.map charDecompose).flatten
  let stripped := decomposed.filter fun ch => !isCombining ch
  let replaced := stripped.filter fun ch => ch != ' ' && ch != '-'
  let folded := replaced.map pyCasefoldChar
  ⟨pyStripL folded⟩

/-! ### Constants from `const.py` -/

/-- `const.STR_ONOFF`. -/
def STR_ONOFF : PyDict Bool :=
  [("on", true), ("off", false)]

/-- `const.WEEKDAY_MAPS` (raw, un-normalized keys). -/
def WEEKDAY_MAPS : PyDict (PyDict Int) :=
  [("en",
    [("monday", 0), ("mon", 0), ("tuesday", 1), ("tue", 1), ("wednesday", 2),
     ("wed", 2), ("thursday", 3), ("thu", 3), ("friday", 4), ("fri", 4),
     ("saturday", 5), ("sat", 5), ("sunday", 6), ("sun", 6)]),
   ("pl",
    [("poniedzialek", 0), ("pon", 0), ("poniedziałek", 0), ("wtorek", 1),
     ("wt", 1), ("sroda", 2), ("środa", 2), ("sr", 2), ("czwartek", 3),
     ("czw", 3), ("piatek", 4), ("piątek", 4), ("pt", 4), ("sobota", 5),
     ("sob", 5), ("niedziela", 6), ("nd", 6), ("nie", 6)])]

/-! ### `helpers.parse_on_off` -/

/-- `helpers.parse_on_off(value, field=..., alarm_key=..., errors=...)`:
case-insensitive `"on"`/`"off"` strings or native booleans; anything else
appends an error and yields `None`.  The updated error list is returned. -/
def parse_on_off (value : PyVal) (fieldName alarm_key : String)
    (errors : List String) : Option Bool × List String :=
  let err := errors ++
    ["Alarm " ++ alarm_key ++ ": invalid value " ++ pyValStr value ++
      " for field " ++ fieldName]
  match value with
  | .pstr s =>
    match dget STR_ONOFF (pyCasefold (pyStrip s)) with
    | some b => (some b, errors)
    | none => (none, err)
  | .pbool b => (some b, errors)
  | _ => (none, err)

/-! ### `helpers.build_weekday_maps`

`json.loads` is the Python standard library; it is modelled as an oracle: a
`JsonText` input carries both the raw text and the outcome of `json.loads` on
it.  JSON objects decoded by `json.loads` always have string keys, so the
source's `isinstance(locale, str)` guard is vacuous and has no counterpart in
the model. -/

/-- A custom-map text input together with the (oracle) outcome of
`json.loads` on it. -/
structure JsonText where
  text : String
  loads : Except String PyVal

/-- The normalized base table: each locale's mapping re-keyed through
`normalize_day_key` (the dict comprehension in `build_weekday_maps`). -/
def normalizeMapKeys (m : PyDict Int) : PyDict Int :=
  m.foldl (fun acc kv => dset acc (normalize_day_key kv.1) kv.2) []

/-- The base table `build_weekday_maps` starts from. -/
def baseWeekdayMaps : PyDict (PyDict Int) :=
  WEEKDAY_MAPS.map fun p => (p.1, normalizeMapKeys p.2)

/-- The inner entry loop of `build_weekday_maps`: fold the custom entries of
one locale into its working mapping, collecting per-entry errors. -/
def processEntries (locale : String) :
    PyDict Int → List (String × PyVal) → PyDict Int × List String
  | nm, [] => (nm, [])
  | nm, (day_name, idxv) :: rest =>
    match pyToInt idxv with
    | none =>
      let r := processEntries locale nm rest
      (r.1, ("Custom map value for " ++ day_name ++ " in locale " ++ locale ++
        " is not an integer") :: r.2)
    | some w =>
      if w < 0 ∨ 6 < w then
        let r := processEntries locale nm rest
        (r.1, ("Custom map value for " ++ day_name ++ " in locale " ++ locale ++
          " must be between 0 and 6") :: r.2)
      else
        processEntries locale (dset nm (normalize_day_key day_name) w) rest

/-- The outer locale loop of `build_weekday_maps`. -/
def processLocales :
    PyDict (PyDict Int) → List (String × PyVal) → PyDict (PyDict Int) × List String
  | base, [] => (base, [])
  | base, (locale, mv) :: rest =>
    match mv with
    | .pdict m =>
      let start := (dget base locale).getD []
      let inner := processEntries locale start m
      let r := processLocales (dset base locale inner.1) rest
      (r.1, inner.2 ++ r.2)
    | _ =>
      let r := processLocales base rest
      (r.1, ("Custom map for locale " ++ locale ++ " must be an object") :: r.2)

/-- `helpers.build_weekday_maps(custom_map_json)`. -/
def build_weekday_maps (custom : JsonText) : PyDict (PyDict Int) × List String :=
  let base := baseWeekdayMaps
  if custom.text.data.isEmpty || (pyStrip custom.text).data.isEmpty then (base, [])
  else
    match custom.loads with
    | .error err => (base, ["Invalid custom map JSON: " ++ err])
    | .ok (.pdict entries) => processLocales base entries
    | .ok _ => (base, ["Custom map must be a JSON object"])

/-- Two-level table lookup: the entry of locale `l`, day key `d`. -/
def dget2 (b : PyDict (PyDict Int)) (l d : String) : Option Int :=
  match dget b l with
  | some m => dget m d
  | none => none

/-- Specification vocabulary for C8: a custom map entry is a *valid override*
for normalized day key `d` when its name normalizes to `d` and its value
coerces to an integer in `[0, 6]`. -/
def validEntryB (d : String) (e : String × PyVal) : Bool :=
  normalize_day_key e.1 == d &&
    match pyToInt e.2 with
    | some w => decide (0 ≤ w ∧ w ≤ 6)
    | none => false

/-- Specification vocabulary for C8: whether the parsed custom map contains a
valid override for `(locale, d)`. -/
def hasValidOverrideB (j : JsonText) (locale d : String) : Bool :=
  match j.loads with
  | .ok (.pdict entries) =>
    entries.any fun lm =>
      lm.1 == locale &&
        match lm.2 with
        | .pdict m => m.any (validEntryB d)
        | _ => false
  | _ => false

/-- Specification vocabulary for C8: an entry is invalid when its value does
not coerce to an integer in `[0, 6]`. -/
def invalidEntryB (e : String × PyVal) : Bool :=
  match pyToInt e.2 with
  | none => true
  | some w => decide (w < 0 ∨ 6 < w)

/-- Specification vocabulary for C8: the number of errors a parsed custom
map object produces (one per non-object locale value, one per invalid
entry). -/
def countInvalid : List (String × PyVal) → Nat
  | [] => 0
  | (_, .pdict m) :: rest => m.countP invalidEntryB + countInvalid rest
  | _ :: rest => 1 + countInvalid rest

/-! ### `helpers.detect_weekday_locale` -/

/-- The per-locale score of `detect_weekday_locale`: how many of the
normalized day-name lines occur as keys of the locale's table. -/
def scoreL (lines : List String) (m : PyDict Int) : Int :=
  (lines.countP fun item => dHasKey m item : Nat)

/-- The scoring scan of `detect_weekday_locale`: visit locales in table
order, tracking the best (locale, score) pair, replacing it only on a
strictly greater score. -/
def scanLocales (normalized_lines : List String) :
    List (String × PyDict Int) → Option String × Int → Option String × Int
  | [], acc => acc
  | (locale, mapping) :: rest, acc =>
    let score : Int := scoreL normalized_lines mapping
    scanLocales normalized_lines rest
      (if acc.2 < score then (some locale, score) else acc)

/-- `helpers.detect_weekday_locale(weekday_lines, locale_option, maps)`.
On an empty `maps` the Python source would raise `StopIteration` from
`next(iter(maps))`; the model returns `""` there (all theorems assume a
non-empty table). -/
def detect_weekday_locale (weekday_lines : List String) (locale_option : String)
    (maps : PyDict (PyDict Int)) : String :=
  let default_locale := (dkeys maps).headD ""
  if locale_option ≠ "auto" then
    if dHasKey maps locale_option then locale_option else default_locale
  else if weekday_lines.isEmpty then default_locale
  else
    let normalized_lines := weekday_lines.map normalize_day_key
    match (scanLocales normalized_lines maps (none, -1)).1 with
    | none => default_locale
    | some l => l

/-! ### `helpers.normalize_repeat_days` -/

/-- First fallback map containing a normalized line (the inner
`for candidate_map in fallback_maps` loop). -/
def findMapWith (nl : String) : List (PyDict Int) → Option Int
  | [] => none
  | m :: rest =>
    match dget m nl with
    | some idx => some idx
    | none => findMapWith nl rest

/-- The per-line loop of `normalize_repeat_days`: returns
`(localized_days, normalized_days, errors)` in encounter order; `seen` is the
set of weekday indices already recorded. -/
def repeatLoop (alarm_key locale : String) (fms : List (PyDict Int)) :
    List String → List Int → List String × List Int × List String
  | [], _ => ([], [], [])
  | line :: rest, seen =>
    match findMapWith (normalize_day_key line) fms with
    | some idx =>
      if idx ∈ seen then repeatLoop alarm_key locale fms rest seen
      else
        let r := repeatLoop alarm_key locale fms rest (idx :: seen)
        (line :: r.1, idx :: r.2.1, r.2.2)
    | none =>
      let r := repeatLoop alarm_key locale fms rest seen
      (r.1, r.2.1,
        ("Alarm " ++ alarm_key ++ ": could not map repeat day " ++ line ++
          " with locale " ++ locale) :: r.2.2)

/-- Split a repeat-days text into stripped non-empty lines. -/
def repeatLines (text : String) : List String :=
  ((pySplitlines text).map pyStrip).filter fun l => !l.data.isEmpty

/-- The fallback map chain of `normalize_repeat_days`: the detected locale's
mapping first, then every other locale's mapping in insertion order. -/
def fallbackMapsFor (locale : String) (maps : PyDict (PyDict Int)) :
    List (PyDict Int) :=
  ((dget maps locale).getD []) :: (maps.filter fun p => p.1 ≠ locale).map Prod.snd

/-- `helpers.normalize_repeat_days(raw, ...)`: returns
`(localized_days, normalized_days, locale)` together with the errors it
appends (the caller concatenates them onto its shared error list). -/
def normalize_repeat_days (raw : PyVal) (alarm_key locale_option : String)
    (maps : PyDict (PyDict Int)) :
    (List String × List Int × String) × List String :=
  let text := pyValStr (if pyFalsy raw then .pstr "" else raw)
  let lines := repeatLines text
  let locale := detect_weekday_locale lines locale_option maps
  if lines.isEmpty then (([], [], locale), [])
  else
    let r := repeatLoop alarm_key locale (fallbackMapsFor locale maps) lines []
    ((r.1, r.2.1, locale), r.2.2)

/-- Specification vocabulary for C3: the weekday index each repeat-day line
resolves to (in order, with multiplicity), through the same fallback chain
`normalize_repeat_days` uses. -/
def resolvedRepeatDays (raw : PyVal) (locale_option : String)
    (maps : PyDict (PyDict Int)) : List Int :=
  let text := pyValStr (if pyFalsy raw then .pstr "" else raw)
  let lines := repeatLines text
  let locale := detect_weekday_locale lines locale_option maps
  lines.filterMap fun line =>
    findMapWith (normalize_day_key line) (fallbackMapsFor locale maps)

/-- Specification vocabulary for C3: first-occurrence deduplication,
excluding an initial `seen` set. -/
def listDedupExcl (seen : List Int) : List Int → List Int
  | [] => []
  | x :: rest =>
    if x ∈ seen then listDedupExcl seen rest
    else x :: listDedupExcl (x :: seen) rest

/-! ### The normalized data model (`helpers.NormalizedAlarm` etc.) -/

/-- `helpers.NormalizedAlarm`. -/
structure NormalizedAlarm where
  key : String
  label : String
  enabled : Bool
  «repeat» : Bool
  snooze : Bool
  base_time : PyDateTime
  repeat_days_localized : List String
  repeat_days_normalized : List Int
deriving DecidableEq, Repr

/-- `helpers.NormalizedEvent`. -/
structure NormalizedEvent where
  alarms : PyDict NormalizedAlarm
  map_locale : String
  parse_errors : List String
  map_errors : List String

/-- `helpers.NextAlarmComputation`. -/
structure NextAlarmComputation where
  alarm : Option NormalizedAlarm
  next_time : Option PyDateTime
  schedule : PyDict (Option PyDateTime)
  note : Option String

/-! ### `helpers.normalize_event` -/

/-- The `ValueError` message texts raised by `parse_alarm_datetime`, as
interpolated into parse errors by `normalize_event`. -/
def parseErrMsg : ParseErr → String
  | .missingValue => "missing datetime value"
  | .unsupportedFormat text => "unsupported datetime format: " ++ text

/-- The first pass of `normalize_event`: keep the dict-shaped alarms, record
shape errors, and collect every repeat-day line across all valid alarms.
Returns `(valid_alarms, parse_errors, all_repeat_lines)`. -/
def firstPass : List (String × PyVal) →
    List (String × PyDict PyVal) × List String × List String
  | [] => ([], [], [])
  | (key, raw) :: rest =>
    match raw with
    | .pdict fields =>
      let lines :=
        match dget fields "Repeat Days" with
        | some (.pstr s) => repeatLines s
        | _ => []
      let r := firstPass rest
      ((key, fields) :: r.1, r.2.1, lines ++ r.2.2)
    | _ =>
      let r := firstPass rest
      (r.1, ("Alarm " ++ key ++ ": payload must be an object with alarm fields")
        :: r.2.1, r.2.2)

/-- The tail of `normalize_event`'s per-alarm processing, after the label
has been resolved and the date parsed: the three on/off fields in order,
then the repeat-day handling with the repeat-enabled-but-no-days drop. -/
def processAlarmAfterDate (tz : Int) (map_locale : String)
    (maps : PyDict (PyDict Int)) (key : String) (raw_alarm : PyDict PyVal)
    (label : String) (base_time : PyDateTime) :
    Option NormalizedAlarm × List String :=
  let st := parse_on_off ((dget raw_alarm "State").getD .pnone) "State" key []
  match st.1 with
  | none => (none, st.2)
  | some state =>
    let rp := parse_on_off ((dget raw_alarm "Repeat").getD .pnone) "Repeat" key st.2
    match rp.1 with
    | none => (none, rp.2)
    | some repeatFlag =>
      let sn := parse_on_off ((dget raw_alarm "Snooze").getD .pnone) "Snooze" key rp.2
      match sn.1 with
      | none => (none, sn.2)
      | some snooze =>
        if repeatFlag then
          let nr := normalize_repeat_days ((dget raw_alarm "Repeat Days").getD (.pstr ""))
            key map_locale maps
          if nr.1.2.1.isEmpty then
            (none, sn.2 ++ nr.2 ++
              ["Alarm " ++ key ++
                ": repeat is enabled but no valid repeat days were provided"])
          else
            (some { key := key, label := label, enabled := state,
                    «repeat» := repeatFlag, snooze := snooze,
                    base_time := base_time,
                    repeat_days_localized := nr.1.1,
                    repeat_days_normalized := nr.1.2.1 }, sn.2 ++ nr.2)
        else
          (some { key := key, label := label, enabled := state,
                  «repeat» := repeatFlag, snooze := snooze,
                  base_time := base_time,
                  repeat_days_localized := [],
                  repeat_days_normalized := [] }, sn.2)

/-- Process one valid-shaped alarm in the second pass of `normalize_event`:
returns the normalized alarm (or `none` when the alarm is dropped) and the
errors appended while processing it. -/
def processAlarm (tz : Int) (map_locale : String) (maps : PyDict (PyDict Int))
    (key : String) (raw_alarm : PyDict PyVal) :
    Option NormalizedAlarm × List String :=
  let label0 := pyStrip (pyValStr ((dget raw_alarm "Label").getD (.pstr "")))
  let label := if label0.data.isEmpty then key else label0
  let raw_date := (dget raw_alarm "Date").getD .pnone
  if raw_date.isNone then (none, ["Alarm " ++ key ++ ": missing Date"])
  else
    match parse_alarm_datetime (pyValStr raw_date) tz with
    | .error err => (none, ["Alarm " ++ key ++ ": " ++ parseErrMsg err])
    | .ok base_time =>
      processAlarmAfterDate tz map_locale maps key raw_alarm label base_time

/-- The second pass of `normalize_event` over the valid-shaped alarms. -/
def secondPass (tz : Int) (map_locale : String) (maps : PyDict (PyDict Int)) :
    List (String × PyDict PyVal) → PyDict NormalizedAlarm × List String
  | [] => ([], [])
  | (key, raw_alarm) :: rest =>
    let p := processAlarm tz map_locale maps key raw_alarm
    let r := secondPass tz map_locale maps rest
    match p.1 with
    | some alarm => ((key, alarm) :: r.1, p.2 ++ r.2)
    | none => (r.1, p.2 ++ r.2)

/-- `helpers.normalize_event(alarms=..., tzinfo=..., locale_option=...,
maps=..., map_errors=...)`. -/
def normalize_event (alarms : List (String × PyVal)) (tz : Int)
    (locale_option : String) (maps : PyDict (PyDict Int))
    (map_errors : List String) : NormalizedEvent :=
  let fp := firstPass alarms
  let map_locale := detect_weekday_locale fp.2.2 locale_option maps
  let sp := secondPass tz map_locale maps fp.1
  { alarms := sp.1
    map_locale := map_locale
    parse_errors := fp.2.1 ++ sp.2
    map_errors := map_errors }

/-! ### `helpers.compute_single_alarm_next` and `helpers.compute_next_alarm`

`now` arguments are consumed by the source only through timezone conversion
and instant comparison, so they are modelled by their absolute instant
(microseconds since the epoch); `tzinfo` arguments by a fixed UTC offset. -/

/-- `datetime.combine(candidate_date, base_time_components)` followed by
`_localize(·, tzinfo)`: the civil fields of day number `dayIdx` with the
time-of-day `tod` (microseconds into the day), carrying offset `tz`. -/
def mkLocalCandidate (dayIdx tod tz : Int) : PyDateTime :=
  let c := civilFromDays dayIdx
  { year := c.1, month := c.2.1, day := c.2.2
    hour := tod.fdiv usPerHour
    minute := (tod.fdiv usPerMinute).emod 60
    second := (tod.fdiv usPerSecond).emod 60
    microsecond := tod.emod usPerSecond
    tz := some tz }

/-- The `for offset in range(0, 8)` loop of `compute_single_alarm_next`:
`candidate_date.weekday()` is `(dayIdx + 3) % 7` because day number 0
(1970-01-01) was a Thursday and Python counts Monday as 0. -/
def repeatScan (daysN : List Int) (localToday tod tz now : Int) :
    List Nat → Option PyDateTime
  | [] => none
  | off :: rest =>
    let candidate_date := localToday + (off : Int)
    let weekday := (candidate_date + 3).emod 7
    if weekday ∈ daysN then
      let candidate := mkLocalCandidate candidate_date tod tz
      if now < candidate.toInstant then some candidate
      else repeatScan daysN localToday tod tz now rest
    else repeatScan daysN localToday tod tz now rest

/-- `helpers.compute_single_alarm_next(alarm, now, tzinfo)`.
`local_today` is the day number of `now` in the target timezone and `tod`
the time-of-day (microseconds) of `alarm.base_time` there, exactly the
`hour/minute/second/microsecond` components the source copies out of
`base_local`. -/
def compute_single_alarm_next (alarm : NormalizedAlarm) (now tz : Int) :
    Option PyDateTime :=
  if !alarm.enabled then none
  else if !alarm.«repeat» then
    if now < alarm.base_time.toInstant then some alarm.base_time else none
  else if alarm.repeat_days_normalized.isEmpty then none
  else
    let local_today := (now + tz).fdiv usPerDay
    let tod := (alarm.base_time.toInstant + tz).emod usPerDay
    repeatScan alarm.repeat_days_normalized local_today tod tz now (List.range 8)

/-- `helpers.compute_alarm_schedule(alarms, now, tzinfo)`. -/
def compute_alarm_schedule (alarms : PyDict NormalizedAlarm) (now tz : Int) :
    PyDict (Option PyDateTime) :=
  alarms.map fun p => (p.1, compute_single_alarm_next p.2 now tz)

/-- The selection loop of `compute_next_alarm` over the sorted keys: a
strictly earlier candidate time replaces the current best.  (`alarms[key]`
cannot fail in the source because the scanned keys are the dictionary's own
keys; the corresponding impossible branch leaves the accumulator
unchanged.) -/
def scanNext (sched : PyDict (Option PyDateTime)) (alarms : PyDict NormalizedAlarm) :
    List String → Option (NormalizedAlarm × PyDateTime) →
      Option (NormalizedAlarm × PyDateTime)
  | [], acc => acc
  | key :: rest, acc =>
    match (dget sched key).getD none with
    | none => scanNext sched alarms rest acc
    | some ct =>
      let take : Bool :=
        match acc with
        | none => true
        | some (_, bt) => ct.toInstant < bt.toInstant
      if take then
        match dget alarms key with
        | some a => scanNext sched alarms rest (some (a, ct))
        | none => scanNext sched alarms rest acc
      else scanNext sched alarms rest acc

/-- `helpers.compute_next_alarm(alarms, now, tzinfo)`. -/
def compute_next_alarm (alarms : PyDict NormalizedAlarm) (now tz : Int) :
    NextAlarmComputation :=
  let schedule := compute_alarm_schedule alarms now tz
  let sortedKeys := insertionSortBy pyStrLe (dkeys alarms)
  let best := scanNext schedule alarms sortedKeys none
  let note : Option String :=
    if alarms.isEmpty then some "no_alarms"
    else if alarms.all (fun p => !p.2.enabled) then some "no_enabled"
    else if (best.map Prod.snd).isNone then some "no_future"
    else none
  { alarm := best.map Prod.fst
    next_time := best.map Prod.snd
    schedule := schedule
    note := note }

/-! ### `NormalizedAlarm.to_dict` / `NormalizedAlarm.from_dict` -/

/-- `NormalizedAlarm.to_dict`. -/
def NormalizedAlarm.to_dict (a : NormalizedAlarm) : PyDict PyVal :=
  [("key", .pstr a.key), ("label", .pstr a.label), ("enabled", .pbool a.enabled),
   ("repeat", .pbool a.«repeat»), ("snooze", .pbool a.snooze),
   ("base_time", .pstr (isoformat a.base_time)),
   ("repeat_days_localized", .plist (a.repeat_days_localized.map .pstr)),
   ("repeat_days_normalized", .plist (a.repeat_days_normalized.map .pint))]

/-- Coerce a stored list of strings (`list(data.get(...))`); values outside
the declared element type never occur in the integration's own storage and
are outside the model. -/
def pyStrList : PyVal → Option (List String)
  | .plist xs => xs.mapM fun v => match v with | .pstr s => some s | _ => none
  | _ => none

/-- Coerce a stored list of integers. -/
def pyIntList : PyVal → Option (List Int)
  | .plist xs => xs.mapM fun v => match v with | .pint n => some n | _ => none
  | _ => none

/-- `NormalizedAlarm.from_dict(data)`: failures (`KeyError`, the
`ValueError` for an unparseable stored datetime, type errors from the list
coercions) are `none`; `bool(...)` is Python truthiness. -/
def NormalizedAlarm.from_dict (data : PyDict PyVal) : Option NormalizedAlarm := do
  let bts ← dget data "base_time"
  let base_time ← dtutil_parse_datetime bts
  let keyv ← dget data "key"
  let locd ← pyStrList ((dget data "repeat_days_localized").getD (.plist []))
  let normd ← pyIntList ((dget data "repeat_days_normalized").getD (.plist []))
  pure { key := pyValStr keyv
         label := pyValStr ((dget data "label").getD (.pstr ""))
         enabled := !pyFalsy ((dget data "enabled").getD (.pbool false))
         «repeat» := !pyFalsy ((dget data "repeat").getD (.pbool false))
         snooze := !pyFalsy ((dget data "snooze").getD (.pbool false))
         base_time := base_time
         repeat_days_localized := locd
         repeat_days_normalized := normd }

/-! ### `coordinator.py`: restore helpers

The `_restore_*` helpers take the raw stored value (`data.get(field)`, with
`None` for a missing field) and fall back to a typed default, logging --
an external effect outside the state model -- on mismatch. -/

/-- `coordinator._restore_str`. -/
def restoreStr (raw : PyVal) (default : Option String) : Option String :=
  match raw with
  | .pnone => default
  | .pstr s => some s
  | _ => default

/-- `coordinator._restore_list` (tuples do not occur in stored data). -/
def restoreList (raw : PyVal) (default : List PyVal) : List PyVal :=
  match raw with
  | .pnone => default
  | .plist xs => xs
  | _ => default

/-- `coordinator._restore_mapping`. -/
def restoreMapping (raw : PyVal) (default : PyDict PyVal) : PyDict PyVal :=
  match raw with
  | .pnone => default
  | .pdict xs => xs
  | _ => default

/-- `coordinator._restore_datetime`.  The vendored `dt_util.parse_datetime`
never returns a naive datetime, so the source's assume-UTC branch for naive
restores is subsumed by the shim itself. -/
def restoreDatetime (raw : PyVal) : Option PyDateTime :=
  match raw with
  | .pnone => none
  | .pdt d => dtutil_parse_datetime (.pdt d)
  | .pstr s => dtutil_parse_datetime (.pstr s)
  | _ => none

/-- `coordinator._restore_int`. -/
def restoreInt (raw : PyVal) (default : Int) : Int :=
  match raw with
  | .pnone => default
  | .pbool _ => default
  | .pint n => n
  | .pstr s => (parsePyIntStr s).getD default
  | _ => default

/-- `coordinator._restore_bool`. -/
def restoreBool (raw : PyVal) (default : Bool) : Bool :=
  match raw with
  | .pnone => default
  | .pbool b => b
  | .pint n => n != 0
  | .pstr s =>
    let normalized := pyCasefold (pyStrip s)
    match dget STR_ONOFF normalized with
    | some b => b
    | none =>
      if normalized = "true" then true
      else if normalized = "false" then false
      else default
  | _ => default

/-- `const.MAP_VERSION`. -/
def MAP_VERSION : Int := 1

/-! ### `coordinator.PersonState` -/

/-- `coordinator.PersonState`.  Timer cancellation handles are modelled by
`Option Unit` (present iff a live timer is armed). -/
structure PersonState where
  slug : String
  person : String
  normalized_alarms : PyDict NormalizedAlarm := []
  parse_errors : List String := []
  map_errors : List String := []
  map_locale : Option String := none
  last_event_time : Option PyDateTime := none
  raw_event : Option (PyDict PyVal) := none
  next_alarm_key : Option String := none
  next_alarm_time : Option PyDateTime := none
  previous_alarm_key : Option String := none
  previous_alarm_time : Option PyDateTime := none
  note : Option String := none
  schedule : PyDict (Option PyDateTime) := []
  timer_cancel : Option Unit := none
  map_version : Int := MAP_VERSION
  last_refresh_start : Option PyDateTime := none
  last_refresh_end : Option PyDateTime := none
  refresh_problem : Bool := false
  refresh_timer_cancel : Option Unit := none
  refresh_timeout_token : Option String := none

/-- Serialize an optional string field. -/
def optStrVal : Option String → PyVal
  | none => .pnone
  | some s => .pstr s

/-- Serialize an optional datetime field via `isoformat`. -/
def optIsoVal : Option PyDateTime → PyVal
  | none => .pnone
  | some d => .pstr (isoformat d)

/-- `PersonState.as_dict`. -/
def PersonState.as_dict (s : PersonState) : PyDict PyVal :=
  [("person", .pstr s.person),
   ("normalized_alarms",
     .pdict (s.normalized_alarms.map fun p => (p.1, .pdict p.2.to_dict))),
   ("parse_errors", .plist (s.parse_errors.map .pstr)),
   ("map_errors", .plist (s.map_errors.map .pstr)),
   ("map_locale", optStrVal s.map_locale),
   ("last_event_time", optIsoVal s.last_event_time),
   ("raw_event", match s.raw_event with | none => .pnone | some d => .pdict d),
   ("next_alarm_key", optStrVal s.next_alarm_key),
   ("next_alarm_time", optIsoVal s.next_alarm_time),
   ("previous_alarm_key", optStrVal s.previous_alarm_key),
   ("previous_alarm_time", optIsoVal s.previous_alarm_time),
   ("note", optStrVal s.note),
   ("schedule", .pdict (s.schedule.map fun p => (p.1, optIsoVal p.2))),
   ("map_version", .pint s.map_version),
   ("last_refresh_start", optIsoVal s.last_refresh_start),
   ("last_refresh_end", optIsoVal s.last_refresh_end)]

/-- The alarm-restore loop of `PersonState.from_dict`: skip entries that are
not mappings, lack a restorable `base_time`, or whose payload fails
`NormalizedAlarm.from_dict`. -/
def restoreAlarms : PyDict NormalizedAlarm → List (String × PyVal) →
    PyDict NormalizedAlarm
  | acc, [] => acc
  | acc, (alarm_key, alarm_data) :: rest =>
    match alarm_data with
    | .pdict fields =>
      match restoreDatetime ((dget fields "base_time").getD .pnone) with
      | none => restoreAlarms acc rest
      | some base_time =>
        let key1 := (restoreStr ((dget fields "key").getD .pnone) (some alarm_key)).getD alarm_key
        let key2 := if key1.data.isEmpty then alarm_key else key1
        let label1 := (restoreStr ((dget fields "label").getD .pnone) (some "")).getD ""
        let payload : PyDict PyVal :=
          [("key", .pstr key2), ("label", .pstr label1),
           ("enabled", .pbool (restoreBool ((dget fields "enabled").getD .pnone) false)),
           ("repeat", .pbool (restoreBool ((dget fields "repeat").getD .pnone) false)),
           ("snooze", .pbool (restoreBool ((dget fields "snooze").getD .pnone) false)),
           ("base_time", .pdt base_time),
           ("repeat_days_localized",
             .plist (restoreList ((dget fields "repeat_days_localized").getD .pnone) [])),
           ("repeat_days_normalized",
             .plist (restoreList ((dget fields "repeat_days_normalized").getD .pnone) []))]
        match NormalizedAlarm.from_dict payload with
        | some a => restoreAlarms (dset acc alarm_key a) rest
        | none => restoreAlarms acc rest
    | _ => restoreAlarms acc rest

/-- The schedule-restore loop of `PersonState.from_dict` (stored keys are
always strings in the model, as in the storage JSON). -/
def restoreSchedule : PyDict (Option PyDateTime) → List (String × PyVal) →
    PyDict (Option PyDateTime)
  | acc, [] => acc
  | acc, (key, value) :: rest => restoreSchedule (dset acc key (restoreDatetime value)) rest

/-- Keep the string elements of a restored error list (storage only ever
contains strings there). -/
def strElems (xs : List PyVal) : List String :=
  xs.filterMap fun v => match v with | .pstr s => some s | _ => none

/-- `PersonState.from_dict(slug, data)`. -/
def PersonState.from_dict (slug : String) (data : PyDict PyVal) : PersonState :=
  let person0 := (restoreStr ((dget data "person").getD .pnone) (some slug)).getD slug
  let person := if person0.data.isEmpty then slug else person0
  { slug := slug
    person := person
    normalized_alarms :=
      restoreAlarms [] (restoreMapping ((dget data "normalized_alarms").getD .pnone) [])
    parse_errors := strElems (restoreList ((dget data "parse_errors").getD .pnone) [])
    map_errors := strElems (restoreList ((dget data "map_errors").getD .pnone) [])
    map_locale := restoreStr ((dget data "map_locale").getD .pnone) none
    last_event_time := restoreDatetime ((dget data "last_event_time").getD .pnone)
    raw_event :=
      match (dget data "raw_event").getD .pnone with
      | .pnone => none
      | .pdict d => some d
      | _ => none
    next_alarm_key := restoreStr ((dget data "next_alarm_key").getD .pnone) none
    next_alarm_time := restoreDatetime ((dget data "next_alarm_time").getD .pnone)
    previous_alarm_key := restoreStr ((dget data "previous_alarm_key").getD .pnone) none
    previous_alarm_time := restoreDatetime ((dget data "previous_alarm_time").getD .pnone)
    note := restoreStr ((dget data "note").getD .pnone) none
    schedule := restoreSchedule [] (restoreMapping ((dget data "schedule").getD .pnone) [])
    map_version := restoreInt ((dget data "map_version").getD .pnone) MAP_VERSION
    last_refresh_start := restoreDatetime ((dget data "last_refresh_start").getD .pnone)
    last_refresh_end := restoreDatetime ((dget data "last_refresh_end").getD .pnone)
    refresh_problem := false }

/-! ### Coordinator state transitions -/

/-- `NextAlarmCoordinator._schedule_rollover`: cancel any previous rollover
timer and arm one exactly when a next alarm time exists. -/
def scheduleRollover (s : PersonState) : PersonState :=
  { s with timer_cancel := if s.next_alarm_time.isSome then some () else none }

/-- `NextAlarmCoordinator._refresh_schedule(state, reference_time)`. -/
def refreshSchedule (s : PersonState) (reference_time tz : Int) : PersonState :=
  if s.normalized_alarms.isEmpty then
    { s with next_alarm_key := none, next_alarm_time := none,
             note := some "no_alarms", schedule := [] }
  else
    let computation := compute_next_alarm s.normalized_alarms reference_time tz
    { s with next_alarm_key := computation.alarm.map NormalizedAlarm.key
             next_alarm_time := computation.next_time
             note := computation.note
             schedule := computation.schedule
             map_version := MAP_VERSION }

/-- The per-person restore branch of
`NextAlarmCoordinator._async_load_storage` (after `PersonState.from_dict`):
a still-future stored `next_alarm_time` triggers a recompute at one second
before the stored time; otherwise a wall-clock recompute; then the rollover
timer is rearmed. -/
def loadStorageRestore (s : PersonState) (wallNow tz : Int) : PersonState :=
  let s2 :=
    match s.next_alarm_time with
    | some t =>
      if wallNow ≤ t.toInstant then
        let near := t.toInstant - usPerSecond
        let computation := compute_next_alarm s.normalized_alarms near tz
        { s with next_alarm_key := computation.alarm.map NormalizedAlarm.key
                 next_alarm_time := computation.next_time
                 note := computation.note
                 schedule := computation.schedule }
      else refreshSchedule s wallNow tz
    | none => refreshSchedule s wallNow tz
  scheduleRollover s2

/-- The state mutation performed by
`NextAlarmCoordinator._async_mark_refresh_timeout` once the person exists:
a stale token is discarded, a current token marks the refresh problem and
clears the token and timer handle. -/
def markRefreshTimeout (s : PersonState) (token : String) : PersonState :=
  if s.refresh_timeout_token ≠ some token then s
  else { s with refresh_timer_cancel := none, refresh_problem := true,
                refresh_timeout_token := none }

/-- The state mutation performed by
`NextAlarmCoordinator._async_process_refresh_start` on the (existing or
fresh) person state: stamp the refresh start, cancel any previous timeout
timer, clear the problem flag, install the freshly minted token and arm the
timeout timer. -/
def processRefreshStart (s : PersonState) (person : String)
    (reference_now : PyDateTime) (token : String) : PersonState :=
  { s with person := person
           last_refresh_start := some reference_now
           refresh_problem := false
           refresh_timeout_token := some token
           refresh_timer_cancel := some () }

/-- The state mutation performed by
`NextAlarmCoordinator._async_process_event` on the (existing or fresh)
person state, given the event payload and reference time: normalize, compute
the next alarm using the event's own timestamp, replace the state fields,
clear the refresh-problem flag and token, cancel the refresh timer, and
rearm the rollover timer. -/
def process_event (s : PersonState) (person : String)
    (alarms : List (String × PyVal)) (tz : Int) (locale_option : String)
    (maps : PyDict (PyDict Int)) (map_errors : List String)
    (reference_now : PyDateTime) (raw_event : PyDict PyVal) : PersonState :=
  let normalized := normalize_event alarms tz locale_option maps map_errors
  let computation := compute_next_alarm normalized.alarms reference_now.toInstant tz
  scheduleRollover
    { s with person := person
             normalized_alarms := normalized.alarms
             parse_errors := normalized.parse_errors
             map_errors := normalized.map_errors
             map_locale := some normalized.map_locale
             last_event_time := some reference_now
             last_refresh_end := some reference_now
             refresh_problem := false
             refresh_timeout_token := none
             refresh_timer_cancel := none
             next_alarm_key := computation.alarm.map NormalizedAlarm.key
             next_alarm_time := computation.next_time
             note := computation.note
             schedule := computation.schedule
             map_version := MAP_VERSION
             raw_event := some raw_event }

/-! ### Datetime validity

The field ranges Python's `datetime` constructor enforces, together with the
whole-minute sub-day offsets that `zoneinfo` timezones produce and that
`isoformat` renders exactly.  Every datetime the integration builds
(`ofInstant`, the parsers) satisfies these bounds; they are the domain on
which the storage round-trip is stated. -/

/-- Validity of the modelled datetime fields (decidable, Bool-valued). -/
def PyDateTime.ValidB (d : PyDateTime) : Bool :=
  (decide (1 ≤ d.year) && decide (d.year ≤ 9999)) &&
  (decide (1 ≤ d.month) && decide (d.month ≤ 12)) &&
  (decide (1 ≤ d.day) && decide (d.day ≤ daysInMonth d.year d.month)) &&
  (decide (0 ≤ d.hour) && decide (d.hour ≤ 23)) &&
  (decide (0 ≤ d.minute) && decide (d.minute ≤ 59)) &&
  (decide (0 ≤ d.second) && decide (d.second ≤ 59)) &&
  (decide (0 ≤ d.microsecond) && decide (d.microsecond ≤ 999999)) &&
  (match d.tz with
   | none => true
   | some off => decide (off.emod 60000000 = 0) && decide (off.natAbs < 86400000000))

/-! ## Theorems -/

/-! ### Generic dictionary lemmas -/

theorem dget_isSome_of_mem {β : Type} (d : PyDict β) (k : String)
    (h : k ∈ dkeys d) : (dget d k).isSome := by
  induction d with
  | nil => simp [dkeys] at h
  | cons p rest ih =>
    by_cases hk : p.1 = k
    · simp [dget, hk]
    · simp [dkeys] at h
      rcases h with h | h
      · exact absurd h.symm hk
      · simpa [dget, hk] using ih (by simpa [dkeys] using h)

theorem dget_map_val {β γ : Type} (f : β → γ) (d : PyDict β) (k : String) :
    dget (d.map fun p => (p.1, f p.2)) k = (dget d k).map f := by
  induction d with
  | nil => simp [dget]
  | cons p rest ih =>
    by_cases hk : p.1 = k <;> simp [dget, hk, ih]

theorem dget_dset_self {β : Type} (d : PyDict β) (k : String) (v : β) :
    dget (dset d k v) k = some v := by
  induction d with
  | nil => simp [dset, dget]
  | cons p rest ih =>
    by_cases hk : p.1 = k <;> simp [dset, dget, hk, ih]

theorem dget_dset_ne {β : Type} (d : PyDict β) (k q : String) (v : β)
    (h : k ≠ q) : dget (dset d k v) q = dget d q := by
  induction d with
  | nil => simp [dset, dget, h]
  | cons p rest ih =>
    by_cases hk : p.1 = k
    · simp [dset, dget, hk, h]
    · by_cases hq : p.1 = q <;> simp [dset, dget, hk, hq, Ne.symm h, ih]

/-! ### Lemmas about `compute_single_alarm_next` -/

theorem repeatScan_gt (daysN : List Int) (localToday tod tz now : Int) :
    ∀ (offs : List Nat) (c : PyDateTime),
      repeatScan daysN localToday tod tz now offs = some c → now < c.toInstant := by
  intro offs
  induction offs with
  | nil => intro c h; simp [repeatScan] at h
  | cons o rest ih =>
    intro c h
    simp only [repeatScan] at h
    split at h
    · split at h
      · rename_i hlt
        cases h
        exact hlt
      · exact ih c h
    · exact ih c h

theorem compute_single_gt (alarm : NormalizedAlarm) (now tz : Int) (c : PyDateTime)
    (h : compute_single_alarm_next alarm now tz = some c) : now < c.toInstant := by
  rw [compute_single_alarm_next] at h
  split at h
  · exact absurd h (by simp)
  · split at h
    · split at h
      · cases h; assumption
      · exact absurd h (by simp)
    · split at h
      · exact absurd h (by simp)
      · exact repeatScan_gt _ _ _ _ _ _ _ h

theorem compute_single_disabled (alarm : NormalizedAlarm) (now tz : Int)
    (h : alarm.enabled = false) : compute_single_alarm_next alarm now tz = none := by
  rw [compute_single_alarm_next]
  simp [h]

theorem compute_single_oneshot (alarm : NormalizedAlarm) (now tz : Int)
    (hen : alarm.enabled = true) (hrp : alarm.«repeat» = false) :
    compute_single_alarm_next alarm now tz =
      if now < alarm.base_time.toInstant then some alarm.base_time else none := by
  rw [compute_single_alarm_next]
  simp [hen, hrp]

theorem compute_single_enabled_of_some (alarm : NormalizedAlarm) (now tz : Int)
    (c : PyDateTime) (h : compute_single_alarm_next alarm now tz = some c) :
    alarm.enabled = true := by
  by_contra hc
  rw [compute_single_disabled alarm now tz (by simpa using hc)] at h
  cases h

/-- C1: `compute_single_alarm_next` returns `none` or an instant strictly
after `now`; a disabled alarm yields `none`; an enabled non-repeating alarm
yields `base_time` exactly when `base_time` is strictly after `now` and
`none` otherwise. -/
theorem C1_compute_single_alarm_next (alarm : NormalizedAlarm) (now tz : Int) :
    (∀ c : PyDateTime, compute_single_alarm_next alarm now tz = some c →
        now < c.toInstant)
    ∧ (alarm.enabled = false → compute_single_alarm_next alarm now tz = none)
    ∧ (alarm.enabled = true → alarm.«repeat» = false →
        compute_single_alarm_next alarm now tz =
          if now < alarm.base_time.toInstant then some alarm.base_time else none)
    ∧ (alarm.enabled = true → alarm.«repeat» = false →
        ¬ now < alarm.base_time.toInstant →
        compute_single_alarm_next alarm now tz = none) := by
  refine ⟨fun c h => compute_single_gt alarm now tz c h,
    fun h => compute_single_disabled alarm now tz h,
    fun hen hrp => compute_single_oneshot alarm now tz hen hrp,
    fun hen hrp hpast => ?_⟩
  rw [compute_single_oneshot alarm now tz hen hrp]
  simp [hpast]

/-- Witness for C1 at a concrete enabled one-shot alarm, a past `now` and
the Warsaw summer offset. -/
theorem C1_compute_single_alarm_next_witness :
    compute_single_alarm_next
        ⟨"1", "Alarm 1", true, false, false,
          ⟨2025, 9, 18, 5, 15, 0, 0, some 7200000000⟩, [], []⟩
        1758100000000000 7200000000 =
      if (1758100000000000 : Int) <
          (⟨2025, 9, 18, 5, 15, 0, 0, some 7200000000⟩ : PyDateTime).toInstant then
        some ⟨2025, 9, 18, 5, 15, 0, 0, some 7200000000⟩
      else none :=
  (C1_compute_single_alarm_next _ 1758100000000000 7200000000).2.2.1 rfl rfl

theorem repeatScan_none_of_bad (daysN : List Int) (localToday tod tz now : Int)
    (hbad : ∀ d ∈ daysN, d < 0 ∨ 6 < d) :
    ∀ offs : List Nat, repeatScan daysN localToday tod tz now offs = none := by
  intro offs
  induction offs with
  | nil => rfl
  | cons o rest ih =>
    rw [repeatScan]
    have hmem : ¬ ((localToday + (o : Int) + 3).emod 7 ∈ daysN) := by
      intro hm
      have h0 : 0 ≤ (localToday + (o : Int) + 3).emod 7 :=
        Int.emod_nonneg _ (by norm_num)
      have h7 : (localToday + (o : Int) + 3).emod 7 < 7 :=
        Int.emod_lt_of_pos _ (by norm_num)
      rcases hbad _ hm with h | h <;> omega
    simp [hmem, ih]

/-- C10: an enabled repeating alarm whose non-empty
`repeat_days_normalized` contains no value in `[0, 6]` yields `none` for
every `now` and timezone (the 8-day scan can never match such a list, since
`date.weekday()` always lies in `[0, 6]`). -/
theorem C10_compute_single_invalid_days (alarm : NormalizedAlarm) (now tz : Int)
    (hen : alarm.enabled = true) (hrp : alarm.«repeat» = true)
    (hbad : ∀ d ∈ alarm.repeat_days_normalized, d < 0 ∨ 6 < d) :
    compute_single_alarm_next alarm now tz = none := by
  rw [compute_single_alarm_next]
  simp only [hen, hrp, Bool.not_true, Bool.false_eq_true, if_false]
  by_cases hempty : alarm.repeat_days_normalized.isEmpty
  · simp [hempty]
  · simp only [hempty, if_false]
    exact repeatScan_none_of_bad _ _ _ _ _ hbad _

/-- Witness for C10: a repeating alarm restored with the out-of-range day
list `[7]` never fires. -/
theorem C10_compute_single_invalid_days_witness :
    compute_single_alarm_next
        ⟨"1", "Alarm 1", true, true, false,
          ⟨2025, 9, 18, 5, 15, 0, 0, some 7200000000⟩, ["x"], [7]⟩
        1758100000000000 7200000000 = none :=
  C10_compute_single_invalid_days _ 1758100000000000 7200000000 rfl rfl
    (by intro d hd; simp at hd; omega)

/-! ### The modelled string order and insertion sort -/

theorem listLeChars_refl : ∀ l : List Char, listLeChars l l = true := by
  intro l
  induction l with
  | nil => rfl
  | cons a as ih => simp [listLeChars, ih]

theorem pyStrLe_refl (s : String) : pyStrLe s s = true :=
  listLeChars_refl s.data

theorem listLeChars_total : ∀ a b : List Char,
    listLeChars a b = true ∨ listLeChars b a = true := by
  intro a
  induction a with
  | nil => intro b; left; rfl
  | cons x xs ih =>
    intro b
    cases b with
    | nil => right; rfl
    | cons y ys =>
      by_cases h1 : x.toNat < y.toNat
      · left; simp [listLeChars, h1]
      · by_cases h2 : y.toNat < x.toNat
        · right; simp [listLeChars, h2]
        · rcases ih ys with h | h
          · left; simp [listLeChars, h1, h2, h]
          · right; simp [listLeChars, h1, h2, h]

theorem pyStrLe_total (a b : String) : pyStrLe a b = true ∨ pyStrLe b a = true :=
  listLeChars_total a.data b.data

theorem listLeChars_le_head : ∀ (x y : Char) (xs ys : List Char),
    listLeChars (x :: xs) (y :: ys) = true →
    x.toNat < y.toNat ∨ (x.toNat = y.toNat ∧ listLeChars xs ys = true) := by
  intro x y xs ys h
  by_cases h1 : x.toNat < y.toNat
  · exact Or.inl h1
  · by_cases h2 : y.toNat < x.toNat
    · simp [listLeChars, h1, h2] at h
    · exact Or.inr ⟨by omega, by simpa [listLeChars, h1, h2] using h⟩

theorem listLeChars_trans : ∀ a b c : List Char,
    listLeChars a b = true → listLeChars b c = true → listLeChars a c = true := by
  intro a
  induction a with
  | nil => intro b c _ _; rfl
  | cons x xs ih =>
    intro b c hab hbc
    cases b with
    | nil => simp [listLeChars] at hab
    | cons y ys =>
      cases c with
      | nil => simp [listLeChars] at hbc
      | cons z zs =>
        rcases listLeChars_le_head x y xs ys hab with hxy | ⟨hxy, hab'⟩ <;>
          rcases listLeChars_le_head y z ys zs hbc with hyz | ⟨hyz, hbc'⟩
        · simp [listLeChars, show x.toNat < z.toNat by omega]
        · simp [listLeChars, show x.toNat < z.toNat by omega]
        · simp [listLeChars, show x.toNat < z.toNat by omega]
        · have hne1 : ¬ x.toNat < z.toNat := by omega
          have hne2 : ¬ z.toNat < x.toNat := by omega
          simp [listLeChars, hne1, hne2, ih ys zs hab' hbc']
        

theorem pyStrLe_trans (a b c : String) (h1 : pyStrLe a b = true)
    (h2 : pyStrLe b c = true) : pyStrLe a c = true :=
  listLeChars_trans a.data b.data c.data h1 h2

theorem perm_insertSortedBy {α : Type} (le : α → α → Bool) (a : α) :
    ∀ l : List α, (insertSortedBy le a l).Perm (a :: l) := by
  intro l
  induction l with
  | nil => simp [insertSortedBy]
  | cons b l ih =>
    by_cases h : le a b
    · simp [insertSortedBy, h]
    · simp only [insertSortedBy, h, if_false]
      exact ((ih.cons b).trans (List.Perm.swap a b l))

theorem perm_insertionSortBy {α : Type} (le : α → α → Bool) :
    ∀ l : List α, (insertionSortBy le l).Perm l := by
  intro l
  induction l with
  | nil => simp [insertionSortBy]
  | cons a l ih =>
    exact (perm_insertSortedBy le a (insertionSortBy le l)).trans (ih.cons a)

theorem pairwise_insertSortedBy {α : Type} (le : α → α → Bool)
    (htot : ∀ a b, le a b = true ∨ le b a = true)
    (htrans : ∀ a b c, le a b = true → le b c = true → le a c = true)
    (a : α) : ∀ l : List α, l.Pairwise (fun x y => le x y = true) →
      (insertSortedBy le a l).Pairwise (fun x y => le x y = true) := by
  intro l
  induction l with
  | nil => intro _; simp [insertSortedBy]
  | cons b l ih =>
    intro hp
    have hb : ∀ y ∈ l, le b y = true := (List.pairwise_cons.mp hp).1
    have hl : l.Pairwise (fun x y => le x y = true) := (List.pairwise_cons.mp hp).2
    by_cases h : le a b
    · simp only [insertSortedBy, h, if_true]
      refine List.pairwise_cons.mpr ⟨?_, hp⟩
      intro y hy
      rcases List.mem_cons.mp hy with hy | hy
      · exact hy ▸ h
      · exact htrans a b y h (hb y hy)
    · simp only [insertSortedBy, h, if_false]
      refine List.pairwise_cons.mpr ⟨?_, ih hl⟩
      intro y hy
      have hy' : y = a ∨ y ∈ l :=
        List.mem_cons.mp ((perm_insertSortedBy le a l).mem_iff.mp hy)
      rcases hy' with hy' | hy'
      · rw [hy']
        rcases htot a b with h' | h'
        · exact absurd h' (by simpa using h)
        · exact h'
      · exact hb y hy'

theorem pairwise_insertionSortBy {α : Type} (le : α → α → Bool)
    (htot : ∀ a b, le a b = true ∨ le b a = true)
    (htrans : ∀ a b c, le a b = true → le b c = true → le a c = true) :
    ∀ l : List α, (insertionSortBy le l).Pairwise (fun x y => le x y = true) := by
  intro l
  induction l with
  | nil => simp [insertionSortBy]
  | cons a l ih =>
    exact pairwise_insertSortedBy le htot htrans a (insertionSortBy le l) ih

/-! ### Lemmas about the selection scan of `compute_next_alarm` -/

theorem mem_dkeys_of_dget {β : Type} (d : PyDict β) (k : String) (v : β)
    (h : dget d k = some v) : k ∈ dkeys d := by
  induction d with
  | nil => simp [dget] at h
  | cons p rest ih =>
    by_cases hk : p.1 = k
    · simp [dkeys, hk]
    · simp [dget, hk] at h
      exact List.mem_cons_of_mem _ (ih h)

theorem dget_of_mem_nodup {β : Type} (d : PyDict β) (k : String) (v : β)
    (hnd : (dkeys d).Nodup) (h : (k, v) ∈ d) : dget d k = some v := by
  induction d with
  | nil => simp at h
  | cons p rest ih =>
    rcases List.mem_cons.mp h with h | h
    · simp [← h, dget]
    · have hk : p.1 ≠ k := by
        intro hk
        exact (List.nodup_cons.mp hnd).1
          (hk ▸ mem_dkeys_of_dget rest k v (ih (List.nodup_cons.mp hnd).2 h))
      simp [dget, hk, ih (List.nodup_cons.mp hnd).2 h]

theorem scanNext_isSome (sched : PyDict (Option PyDateTime))
    (alarms : PyDict NormalizedAlarm) :
    ∀ (keys : List String) (x : NormalizedAlarm × PyDateTime),
      (scanNext sched alarms keys (some x)).isSome := by
  intro keys
  induction keys with
  | nil => intro x; simp [scanNext]
  | cons key rest ih =>
    intro x
    cases hs : (dget sched key).getD none with
    | none => simpa [scanNext, hs] using ih x
    | some ct =>
      by_cases hlt : ct.toInstant < x.2.toInstant
      · cases hd : dget alarms key with
        | none => simpa [scanNext, hs, hd, hlt] using ih x
        | some a => simpa [scanNext, hs, hd, hlt] using ih (a, ct)
      · simpa [scanNext, hs, hlt] using ih x

theorem scanNext_none_iff (sched : PyDict (Option PyDateTime))
    (alarms : PyDict NextAlarm.NormalizedAlarm) :
    ∀ keys : List String, (∀ k ∈ keys, (dget alarms k).isSome) →
      (scanNext sched alarms keys none = none ↔
        ∀ k ∈ keys, (dget sched k).getD none = none) := by
  intro keys
  induction keys with
  | nil => intro _; simp [scanNext]
  | cons key rest ih =>
    intro hlook
    have hrest := ih fun k hk => hlook k (List.mem_cons_of_mem _ hk)
    cases hs : (dget sched key).getD none with
    | none =>
      simp only [scanNext, hs]
      constructor
      · intro h k hk
        rcases List.mem_cons.mp hk with hk | hk
        · exact hk ▸ hs
        · exact (hrest.mp h) k hk
      · intro h
        exact hrest.mpr fun k hk => h k (List.mem_cons_of_mem _ hk)
    | some ct =>
      obtain ⟨a, ha⟩ := Option.isSome_iff_exists.mp (hlook key (List.mem_cons_self _ _))
      constructor
      · intro h
        exfalso
        have := scanNext_isSome sched alarms rest (a, ct)
        simp [scanNext, hs, ha] at h
        simp [h] at this
      · intro h
        exact absurd (h key (List.mem_cons_self _ _)) (by simp [hs])

/-- Characterization of the selection scan: scanning keys sorted in
ascending order with strict-less replacement yields the minimal schedule
instant, achieved at the smallest key among the ties; an accumulator that
survives the scan was at most every visited value. -/
theorem scanNext_char (sched : PyDict (Option PyDateTime))
    (alarms : PyDict NormalizedAlarm) :
    ∀ (keys : List String) (acc : Option (NormalizedAlarm × PyDateTime))
      (a : NormalizedAlarm) (t : PyDateTime),
      keys.Pairwise (fun x y => pyStrLe x y = true) →
      (∀ k ∈ keys, (dget alarms k).isSome) →
      scanNext sched alarms keys acc = some (a, t) →
      ((∃ k ∈ keys, dget alarms k = some a ∧ (dget sched k).getD none = some t ∧
          (∀ b u, acc = some (b, u) → t.toInstant < u.toInstant) ∧
          (∀ k' ∈ keys, ∀ t', (dget sched k').getD none = some t' →
            t.toInstant ≤ t'.toInstant ∧
              (t'.toInstant ≤ t.toInstant → pyStrLe k k' = true)))
        ∨ (acc = some (a, t) ∧
            ∀ k' ∈ keys, ∀ t', (dget sched k').getD none = some t' →
              t.toInstant ≤ t'.toInstant)) := by
  intro keys
  induction keys with
  | nil =>
    intro acc a t _ _ h
    simp only [scanNext] at h
    exact Or.inr ⟨h, by simp⟩
  | cons key rest ih =>
    intro acc a t hsort hlook h
    have hle : ∀ b ∈ rest, pyStrLe key b = true := (List.pairwise_cons.mp hsort).1
    have hsrest : rest.Pairwise (fun x y => pyStrLe x y = true) :=
      (List.pairwise_cons.mp hsort).2
    have hlookrest : ∀ k ∈ rest, (dget alarms k).isSome :=
      fun k hk => hlook k (List.mem_cons_of_mem _ hk)
    cases hs : (dget sched key).getD none with
    | none =>
      simp only [scanNext, hs] at h
      rcases ih acc a t hsrest hlookrest h with ⟨k, hk, hka, hkt, haccc, hmin⟩ | ⟨hacc, hmin⟩
      · refine Or.inl ⟨k, List.mem_cons_of_mem _ hk, hka, hkt, haccc, ?_⟩
        intro k' hk' t' ht'
        rcases List.mem_cons.mp hk' with hk' | hk'
        · rw [hk'] at ht'; rw [hs] at ht'; cases ht'
        · exact hmin k' hk' t' ht'
      · refine Or.inr ⟨hacc, ?_⟩
        intro k' hk' t' ht'
        rcases List.mem_cons.mp hk' with hk' | hk'
        · rw [hk'] at ht'; rw [hs] at ht'; cases ht'
        · exact hmin k' hk' t' ht'
    | some ct =>
      obtain ⟨a0, ha0⟩ :=
        Option.isSome_iff_exists.mp (hlook key (List.mem_cons_self _ _))
      cases acc with
      | none =>
        have hstep : scanNext sched alarms (key :: rest) none =
            scanNext sched alarms rest (some (a0, ct)) := by
          simp [scanNext, hs, ha0]
        rw [hstep] at h
        rcases ih (some (a0, ct)) a t hsrest hlookrest h with
          ⟨k, hk, hka, hkt, haccc, hmin⟩ | ⟨hacc, hmin⟩
        · have hlt : t.toInstant < ct.toInstant := haccc a0 ct rfl
          refine Or.inl ⟨k, List.mem_cons_of_mem _ hk, hka, hkt, by simp, ?_⟩
          intro k' hk' t' ht'
          rcases List.mem_cons.mp hk' with hk' | hk'
          · rw [hk'] at ht'; rw [hs] at ht'
            cases ht'
            exact ⟨le_of_lt hlt, fun hc => absurd hc (by omega)⟩
          · exact hmin k' hk' t' ht'
        · cases hacc
          refine Or.inl ⟨key, List.mem_cons_self _ _, ha0, hs, by simp, ?_⟩
          intro k' hk' t' ht'
          rcases List.mem_cons.mp hk' with hk' | hk'
          · subst hk'
            rw [hs] at ht'
            cases ht'
            exact ⟨le_refl _, fun _ => pyStrLe_refl _⟩
          · exact ⟨hmin k' hk' t' ht', fun _ => hle k' hk'⟩
      | some bu =>
        obtain ⟨b, u⟩ := bu
        by_cases hlt : ct.toInstant < u.toInstant
        · have hstep : scanNext sched alarms (key :: rest) (some (b, u)) =
              scanNext sched alarms rest (some (a0, ct)) := by
            simp [scanNext, hs, ha0, hlt]
          rw [hstep] at h
          rcases ih (some (a0, ct)) a t hsrest hlookrest h with
            ⟨k, hk, hka, hkt, haccc, hmin⟩ | ⟨hacc, hmin⟩
          · have hlt2 : t.toInstant < ct.toInstant := haccc a0 ct rfl
            refine Or.inl ⟨k, List.mem_cons_of_mem _ hk, hka, hkt,
              fun b' u' hbu => by cases hbu; omega, ?_⟩
            intro k' hk' t' ht'
            rcases List.mem_cons.mp hk' with hk' | hk'
            · rw [hk'] at ht'; rw [hs] at ht'
              cases ht'
              exact ⟨le_of_lt hlt2, fun hc => absurd hc (by omega)⟩
            · exact hmin k' hk' t' ht'
          · cases hacc
            refine Or.inl ⟨key, List.mem_cons_self _ _, ha0, hs,
              fun b' u' hbu => by cases hbu; omega, ?_⟩
            intro k' hk' t' ht'
            rcases List.mem_cons.mp hk' with hk' | hk'
            · subst hk'
              rw [hs] at ht'
              cases ht'
              exact ⟨le_refl _, fun _ => pyStrLe_refl _⟩
            · exact ⟨hmin k' hk' t' ht', fun _ => hle k' hk'⟩
        · have hstep : scanNext sched alarms (key :: rest) (some (b, u)) =
              scanNext sched alarms rest (some (b, u)) := by
            simp [scanNext, hs, hlt]
          rw [hstep] at h
          rcases ih (some (b, u)) a t hsrest hlookrest h with
            ⟨k, hk, hka, hkt, haccc, hmin⟩ | ⟨hacc, hmin⟩
          · have hlt2 : t.toInstant < u.toInstant := haccc b u rfl
            refine Or.inl ⟨k, List.mem_cons_of_mem _ hk, hka, hkt,
              fun b' u' hbu => by cases hbu; omega, ?_⟩
            intro k' hk' t' ht'
            rcases List.mem_cons.mp hk' with hk' | hk'
            · rw [hk'] at ht'; rw [hs] at ht'
              cases ht'
              exact ⟨by omega, fun hc => absurd hc (by omega)⟩
            · exact hmin k' hk' t' ht'
          · cases hacc
            refine Or.inr ⟨rfl, ?_⟩
            intro k' hk' t' ht'
            rcases List.mem_cons.mp hk' with hk' | hk'
            · rw [hk'] at ht'; rw [hs] at ht'
              cases ht'
              omega
            · exact hmin k' hk' t' ht'

theorem sched_val_eq (alarms : PyDict NormalizedAlarm) (now tz : Int)
    (k : String) (a : NormalizedAlarm) (h : dget alarms k = some a) :
    (dget (compute_alarm_schedule alarms now tz) k).getD none =
      compute_single_alarm_next a now tz := by
  induction alarms with
  | nil => simp [dget] at h
  | cons p rest ih =>
    by_cases hk : p.1 = k
    · have h2 : p.2 = a := by simpa [dget, hk] using h
      simp [compute_alarm_schedule, dget, hk, h2]
    · have h2 : dget rest k = some a := by simpa [dget, hk] using h
      simpa [compute_alarm_schedule, dget, hk] using ih h2

/-- C2: `compute_next_alarm` selects an alarm whose per-alarm next instant is
minimal, and among equal minimal instants the one with the smallest key in
Python's ascending string order; in particular two enabled one-shot alarms
keyed `"2"` and `"1"` sharing a future base time select key `"1"`. -/
theorem C2_compute_next_alarm :
    (∀ (alarms : PyDict NormalizedAlarm) (now tz : Int) (t : PyDateTime),
      (compute_next_alarm alarms now tz).next_time = some t →
      ∃ k a, dget alarms k = some a ∧
        (compute_next_alarm alarms now tz).alarm = some a ∧
        compute_single_alarm_next a now tz = some t ∧
        ∀ k' a', dget alarms k' = some a' →
          ∀ t', compute_single_alarm_next a' now tz = some t' →
            t.toInstant ≤ t'.toInstant ∧
              (t'.toInstant ≤ t.toInstant → pyStrLe k k' = true))
    ∧ (compute_next_alarm
        [("2", ⟨"2", "Alarm 2", true, false, false,
          ⟨2025, 9, 18, 5, 15, 0, 0, some 7200000000⟩, [], []⟩),
         ("1", ⟨"1", "Alarm 1", true, false, false,
          ⟨2025, 9, 18, 5, 15, 0, 0, some 7200000000⟩, [], []⟩)]
        1758132000000000 7200000000).alarm.map NormalizedAlarm.key = some "1" := by
  constructor
  · intro alarms now tz t h
    have hscan :
        (scanNext (compute_alarm_schedule alarms now tz) alarms
          (insertionSortBy pyStrLe (dkeys alarms)) none).map Prod.snd = some t := h
    obtain ⟨p, hp, hpt⟩ := Option.map_eq_some'.mp hscan
    have hsorted : (insertionSortBy pyStrLe (dkeys alarms)).Pairwise
        (fun x y => pyStrLe x y = true) :=
      pairwise_insertionSortBy pyStrLe pyStrLe_total pyStrLe_trans (dkeys alarms)
    have hmemiff : ∀ k : String,
        k ∈ insertionSortBy pyStrLe (dkeys alarms) ↔ k ∈ dkeys alarms :=
      fun k => (perm_insertionSortBy pyStrLe (dkeys alarms)).mem_iff
    have hlook : ∀ k ∈ insertionSortBy pyStrLe (dkeys alarms),
        (dget alarms k).isSome :=
      fun k hk => dget_isSome_of_mem _ _ ((hmemiff k).mp hk)
    rcases scanNext_char _ alarms _ none p.1 p.2 hsorted hlook
        (by rw [hp]) with ⟨k, hk, hka, hkt, _, hmin⟩ | ⟨hacc, _⟩
    · subst hpt
      refine ⟨k, p.1, hka, ?_, ?_, ?_⟩
      · show (scanNext (compute_alarm_schedule alarms now tz) alarms
          (insertionSortBy pyStrLe (dkeys alarms)) none).map Prod.fst = some p.1
        rw [hp]
        rfl
      · rw [← sched_val_eq alarms now tz k p.1 hka]
        exact hkt
      · intro k' a' ha' t' ht'
        have hk'mem : k' ∈ insertionSortBy pyStrLe (dkeys alarms) :=
          (hmemiff k').mpr (mem_dkeys_of_dget _ _ _ ha')
        exact hmin k' hk'mem t' (by rw [sched_val_eq alarms now tz k' a' ha', ht'])
    · cases hacc
  · rfl

/-- Witness for C2: the universal selection property applied to the
concrete two-alarm tie. -/
theorem C2_compute_next_alarm_witness :
    ∃ k a,
      dget [("2", (⟨"2", "Alarm 2", true, false, false,
          ⟨2025, 9, 18, 5, 15, 0, 0, some 7200000000⟩, [], []⟩ : NormalizedAlarm)),
        ("1", ⟨"1", "Alarm 1", true, false, false,
          ⟨2025, 9, 18, 5, 15, 0, 0, some 7200000000⟩, [], []⟩)] k = some a ∧
      (compute_next_alarm [("2", ⟨"2", "Alarm 2", true, false, false,
          ⟨2025, 9, 18, 5, 15, 0, 0, some 7200000000⟩, [], []⟩),
        ("1", ⟨"1", "Alarm 1", true, false, false,
          ⟨2025, 9, 18, 5, 15, 0, 0, some 7200000000⟩, [], []⟩)]
        1758132000000000 7200000000).alarm = some a ∧
      compute_single_alarm_next a 1758132000000000 7200000000 =
        some ⟨2025, 9, 18, 5, 15, 0, 0, some 7200000000⟩ ∧
      ∀ k' a',
        dget [("2", (⟨"2", "Alarm 2", true, false, false,
            ⟨2025, 9, 18, 5, 15, 0, 0, some 7200000000⟩, [], []⟩ : NormalizedAlarm)),
          ("1", ⟨"1", "Alarm 1", true, false, false,
            ⟨2025, 9, 18, 5, 15, 0, 0, some 7200000000⟩, [], []⟩)] k' = some a' →
        ∀ t', compute_single_alarm_next a' 1758132000000000 7200000000 = some t' →
          (⟨2025, 9, 18, 5, 15, 0, 0, some 7200000000⟩ : PyDateTime).toInstant ≤
              t'.toInstant ∧
            (t'.toInstant ≤
                (⟨2025, 9, 18, 5, 15, 0, 0, some 7200000000⟩ : PyDateTime).toInstant →
              pyStrLe k k' = true) :=
  C2_compute_next_alarm.1 _ 1758132000000000 7200000000
    ⟨2025, 9, 18, 5, 15, 0, 0, some 7200000000⟩ rfl

theorem mem_of_dget {β : Type} (d : PyDict β) (k : String) (v : β)
    (h : dget d k = some v) : (k, v) ∈ d := by
  induction d with
  | nil => simp [dget] at h
  | cons p rest ih =>
    by_cases hk : p.1 = k
    · have h2 : p.2 = v := by simpa [dget, hk] using h
      have hpv : p = (k, v) := by
        cases p
        simp_all
      rw [hpv]
      exact List.mem_cons_self _ _
    · simp [dget, hk] at h
      exact List.mem_cons_of_mem _ (ih h)

theorem scan_none_iff_all_none (alarms : PyDict NormalizedAlarm) (now tz : Int)
    (hnd : (dkeys alarms).Nodup) :
    scanNext (compute_alarm_schedule alarms now tz) alarms
        (insertionSortBy pyStrLe (dkeys alarms)) none = none ↔
      ∀ p ∈ alarms, compute_single_alarm_next p.2 now tz = none := by
  have hmemiff : ∀ k : String,
      k ∈ insertionSortBy pyStrLe (dkeys alarms) ↔ k ∈ dkeys alarms :=
    fun k => (perm_insertionSortBy pyStrLe (dkeys alarms)).mem_iff
  have hlook : ∀ k ∈ insertionSortBy pyStrLe (dkeys alarms),
      (dget alarms k).isSome :=
    fun k hk => dget_isSome_of_mem _ _ ((hmemiff k).mp hk)
  rw [scanNext_none_iff _ alarms _ hlook]
  constructor
  · intro h p hp
    have hget : dget alarms p.1 = some p.2 := dget_of_mem_nodup _ _ _ hnd hp
    have hk : p.1 ∈ insertionSortBy pyStrLe (dkeys alarms) :=
      (hmemiff p.1).mpr (mem_dkeys_of_dget _ _ _ hget)
    have := h p.1 hk
    rwa [sched_val_eq alarms now tz p.1 p.2 hget] at this
  · intro h k hk
    obtain ⟨a, ha⟩ :=
      Option.isSome_iff_exists.mp (dget_isSome_of_mem _ _ ((hmemiff k).mp hk))
    rw [sched_val_eq alarms now tz k a ha]
    exact h (k, a) (mem_of_dget _ _ _ ha)

/-- C5: the `note` of `compute_next_alarm` is `no_alarms` exactly on an
empty alarm set, `no_enabled` exactly when non-empty and all alarms
disabled, `no_future` exactly when some alarm is enabled but no alarm has a
future instant, and unset exactly when a next alarm was selected. -/
theorem C5_compute_next_alarm_note (alarms : PyDict NormalizedAlarm)
    (now tz : Int) (hnd : (dkeys alarms).Nodup) :
    ((compute_next_alarm alarms now tz).note = some "no_alarms" ↔ alarms = [])
    ∧ ((compute_next_alarm alarms now tz).note = some "no_enabled" ↔
        alarms ≠ [] ∧ ∀ p ∈ alarms, p.2.enabled = false)
    ∧ ((compute_next_alarm alarms now tz).note = some "no_future" ↔
        (∃ p ∈ alarms, p.2.enabled = true) ∧
          ∀ p ∈ alarms, compute_single_alarm_next p.2 now tz = none)
    ∧ ((compute_next_alarm alarms now tz).note = none ↔
        (compute_next_alarm alarms now tz).next_time.isSome) := by
  have hnote : (compute_next_alarm alarms now tz).note =
      (if alarms.isEmpty then some "no_alarms"
       else if alarms.all (fun p => !p.2.enabled) then some "no_enabled"
       else if ((scanNext (compute_alarm_schedule alarms now tz) alarms
           (insertionSortBy pyStrLe (dkeys alarms)) none).map Prod.snd).isNone then
         some "no_future"
       else none) := rfl
  have hnext : (compute_next_alarm alarms now tz).next_time =
      (scanNext (compute_alarm_schedule alarms now tz) alarms
        (insertionSortBy pyStrLe (dkeys alarms)) none).map Prod.snd := rfl
  have hscannone := scan_none_iff_all_none alarms now tz hnd
  by_cases hc1 : alarms.isEmpty
  · have hempty : alarms = [] := by simpa using hc1
    subst hempty
    refine ⟨by simp [hnote], by simp [hnote, hc1], by simp [hnote, hc1], ?_⟩
    rw [hnote, hnext]
    simp [hc1, scanNext]
  · have hne : alarms ≠ [] := by simpa using hc1
    by_cases hc2 : alarms.all (fun p => !p.2.enabled)
    · have halld : ∀ p ∈ alarms, p.2.enabled = false := by
        intro p hp
        simpa using List.all_eq_true.mp hc2 p hp
      have hscan : scanNext (compute_alarm_schedule alarms now tz) alarms
          (insertionSortBy pyStrLe (dkeys alarms)) none = none :=
        hscannone.mpr fun p hp => compute_single_disabled _ _ _ (halld p hp)
      refine ⟨by simp [hnote, hc1, hc2, hne], ⟨fun _ => ⟨hne, halld⟩, fun _ => by
        simp [hnote, hc1, hc2]⟩, ?_, ?_⟩
      · rw [hnote]
        simp only [hc1, if_false, hc2, if_true]
        constructor
        · intro h
          simp at h
        · rintro ⟨⟨p, hp, hpen⟩, _⟩
          exact absurd (halld p hp) (by simp [hpen])
      · rw [hnote, hnext, hscan]
        simp [hc1, hc2]
    · have hen : ∃ p ∈ alarms, p.2.enabled = true := by
        rcases List.all_eq_true.not.mp hc2 with h
        push_neg at h
        obtain ⟨p, hp, hpe⟩ := h
        exact ⟨p, hp, by simpa using hpe⟩
      have hnotalld : ¬ (alarms ≠ [] ∧ ∀ p ∈ alarms, p.2.enabled = false) := by
        rintro ⟨_, hall⟩
        obtain ⟨p, hp, hpe⟩ := hen
        exact absurd (hall p hp) (by simp [hpe])
      by_cases hc3 : (scanNext (compute_alarm_schedule alarms now tz) alarms
          (insertionSortBy pyStrLe (dkeys alarms)) none) = none
      · refine ⟨by simp [hnote, hc1, hc2, hc3, hne], ?_,
          ⟨fun _ => ⟨hen, hscannone.mp hc3⟩, fun _ => by
            simp [hnote, hc1, hc2, hc3]⟩, ?_⟩
        · rw [hnote]
          simp only [hc1, if_false, hc2, hc3]
          constructor
          · intro h
            simp at h
          · intro h
            exact absurd h hnotalld
        · rw [hnote, hnext, hc3]
          simp [hc1, hc2]
      · obtain ⟨p, hp⟩ := Option.ne_none_iff_exists'.mp hc3
        refine ⟨by simp [hnote, hc1, hc2, hp, hne], ?_, ?_, ?_⟩
        · rw [hnote]
          simp only [hc1, if_false, hc2, hp]
          constructor
          · intro h
            simp at h
          · intro h
            exact absurd h hnotalld
        · rw [hnote]
          simp only [hc1, if_false, hc2, hp]
          constructor
          · intro h
            simp at h
          · rintro ⟨_, hall⟩
            exact absurd (hscannone.mpr hall) hc3
        · rw [hnote, hnext, hp]
          simp [hc1, hc2]

/-- Witness for C5: one enabled non-repeating alarm with a past base time
yields no next time and the `no_future` note. -/
theorem C5_compute_next_alarm_note_witness :
    (compute_next_alarm
        [("1", ⟨"1", "Alarm 1", true, false, false,
          ⟨2025, 9, 17, 5, 15, 0, 0, some 7200000000⟩, [], []⟩)]
        1758132000000000 7200000000).note = some "no_future" ∧
      (compute_next_alarm
        [("1", ⟨"1", "Alarm 1", true, false, false,
          ⟨2025, 9, 17, 5, 15, 0, 0, some 7200000000⟩, [], []⟩)]
        1758132000000000 7200000000).next_time = none :=
  ⟨(C5_compute_next_alarm_note _ 1758132000000000 7200000000
      (by decide)).2.2.1.mpr (by decide),
    by decide⟩

/-! ### Lemmas for `detect_weekday_locale` -/

theorem scanLocales_char (lines : List String) :
    ∀ (ps : List (String × PyDict Int)) (acc : Option String × Int),
      (scanLocales lines ps acc = acc ∧ ∀ p ∈ ps, scoreL lines p.2 ≤ acc.2)
      ∨ (∃ pre p post, ps = pre ++ p :: post ∧
          scanLocales lines ps acc = (some p.1, scoreL lines p.2) ∧
          acc.2 < scoreL lines p.2 ∧
          (∀ q ∈ pre, scoreL lines q.2 < scoreL lines p.2) ∧
          (∀ q ∈ post, scoreL lines q.2 ≤ scoreL lines p.2)) := by
  intro ps
  induction ps with
  | nil => intro acc; exact Or.inl ⟨rfl, by simp⟩
  | cons p0 rest ih =>
    obtain ⟨l0, m0⟩ := p0
    intro acc
    by_cases hlt : acc.2 < scoreL lines m0
    · have hstep : scanLocales lines ((l0, m0) :: rest) acc =
          scanLocales lines rest (some l0, scoreL lines m0) := by
        simp [scanLocales, hlt]
      rcases ih (some l0, scoreL lines m0) with ⟨heq, hall⟩ |
        ⟨pre, p, post, hps, hscan, hacc, hpre, hpost⟩
      · right
        exact ⟨[], (l0, m0), rest, rfl, by rw [hstep, heq], hlt, by simp,
          by simpa using hall⟩
      · right
        have hacc' : scoreL lines m0 < scoreL lines p.2 := by simpa using hacc
        refine ⟨(l0, m0) :: pre, p, post, by rw [hps]; rfl, by rw [hstep, hscan],
          by omega, ?_, hpost⟩
        intro q hq
        rcases List.mem_cons.mp hq with hq | hq
        · rw [hq]
          exact hacc'
        · exact hpre q hq
    · have hstep : scanLocales lines ((l0, m0) :: rest) acc =
          scanLocales lines rest acc := by
        simp [scanLocales, hlt]
      rcases ih acc with ⟨heq, hall⟩ |
        ⟨pre, p, post, hps, hscan, hacc, hpre, hpost⟩
      · left
        refine ⟨by rw [hstep, heq], ?_⟩
        intro q hq
        rcases List.mem_cons.mp hq with hq | hq
        · rw [hq]
          show scoreL lines m0 ≤ acc.2
          omega
        · exact hall q hq
      · right
        refine ⟨(l0, m0) :: pre, p, post, by rw [hps]; rfl, by rw [hstep, hscan],
          hacc, ?_, hpost⟩
        intro q hq
        rcases List.mem_cons.mp hq with hq | hq
        · rw [hq]
          show scoreL lines m0 < scoreL lines p.2
          omega
        · exact hpre q hq

/-- C9: `detect_weekday_locale` with a non-auto option returns that locale
when present and otherwise the first locale, independent of the day-name
lines; with `"auto"` and no lines the first locale; with `"auto"` and lines
the first locale attaining the maximal day-name-hit score in table order. -/
theorem C9_detect_weekday_locale (maps : PyDict (PyDict Int)) (hne : maps ≠ []) :
    (∀ (lines : List String) (locale_option : String), locale_option ≠ "auto" →
      detect_weekday_locale lines locale_option maps =
        if dHasKey maps locale_option then locale_option else (dkeys maps).headD "")
    ∧ detect_weekday_locale [] "auto" maps = (dkeys maps).headD ""
    ∧ (∀ lines : List String, lines ≠ [] →
        ∃ pre p post, maps = pre ++ p :: post ∧
          detect_weekday_locale lines "auto" maps = p.1 ∧
          (∀ q ∈ pre, scoreL (lines.map normalize_day_key) q.2 <
            scoreL (lines.map normalize_day_key) p.2) ∧
          ∀ q ∈ maps, scoreL (lines.map normalize_day_key) q.2 ≤
            scoreL (lines.map normalize_day_key) p.2) := by
  refine ⟨?_, ?_, ?_⟩
  · intro lines locale_option hopt
    simp [detect_weekday_locale, hopt]
  · simp [detect_weekday_locale]
  · intro lines hlines
    rcases scanLocales_char (lines.map normalize_day_key) maps (none, -1) with
      ⟨_, hall⟩ | ⟨pre, p, post, hps, hscan, _, hpre, hpost⟩
    · exfalso
      obtain ⟨q, hq⟩ := List.exists_mem_of_ne_nil maps hne
      have := hall q hq
      have h0 : (0 : Int) ≤ scoreL (lines.map normalize_day_key) q.2 := by
        simp [scoreL]
      omega
    · refine ⟨pre, p, post, hps, ?_, hpre, ?_⟩
      · simp [detect_weekday_locale, hlines, hscan]
      · intro q hq
        rw [hps] at hq
        rcases List.mem_append.mp hq with hq | hq
        · exact le_of_lt (hpre q hq)
        · rcases List.mem_cons.mp hq with hq | hq
          · rw [hq]
          · exact hpost q hq

/-- Witness for C9: auto-detection on the Polish line `"Środa"` over the
built-in tables. -/
theorem C9_detect_weekday_locale_witness :
    ∃ pre p post, baseWeekdayMaps = pre ++ p :: post ∧
      detect_weekday_locale ["Środa"] "auto" baseWeekdayMaps = p.1 ∧
      (∀ q ∈ pre, scoreL (["Środa"].map normalize_day_key) q.2 <
        scoreL (["Środa"].map normalize_day_key) p.2) ∧
      ∀ q ∈ baseWeekdayMaps, scoreL (["Środa"].map normalize_day_key) q.2 ≤
        scoreL (["Środa"].map normalize_day_key) p.2 :=
  (C9_detect_weekday_locale baseWeekdayMaps (by decide)).2.2 ["Środa"] (by decide)

/-! ### Lemmas for `build_weekday_maps` -/

theorem processEntries_preserve (locale d : String) :
    ∀ (entries : List (String × PyVal)) (nm : PyDict Int),
      (∀ e ∈ entries, validEntryB d e = false) →
      dget (processEntries locale nm entries).1 d = dget nm d := by
  intro entries
  induction entries with
  | nil => intro nm _; rfl
  | cons e rest ih =>
    obtain ⟨day_name, idxv⟩ := e
    intro nm hval
    have hrest : ∀ e ∈ rest, validEntryB d e = false :=
      fun e he => hval e (List.mem_cons_of_mem _ he)
    cases hint : pyToInt idxv with
    | none =>
      simp only [processEntries, hint]
      exact ih nm hrest
    | some w =>
      by_cases hw : w < 0 ∨ 6 < w
      · simp only [processEntries, hint, if_pos hw]
        exact ih nm hrest
      · have hne : normalize_day_key day_name ≠ d := by
          have := hval (day_name, idxv) (List.mem_cons_self _ _)
          simp only [validEntryB, hint] at this
          intro hcontra
          simp [hcontra, show 0 ≤ w ∧ w ≤ 6 by omega] at this
        simp only [processEntries, hint, if_neg hw]
        rw [ih _ hrest, dget_dset_ne _ _ _ _ hne]

theorem processEntries_errlen (locale : String) :
    ∀ (entries : List (String × PyVal)) (nm : PyDict Int),
      (processEntries locale nm entries).2.length = entries.countP invalidEntryB := by
  intro entries
  induction entries with
  | nil => intro nm; rfl
  | cons e rest ih =>
    obtain ⟨day_name, idxv⟩ := e
    intro nm
    cases hint : pyToInt idxv with
    | none =>
      simp [processEntries, hint, List.countP_cons, invalidEntryB, ih]
    | some w =>
      by_cases hw : w < 0 ∨ 6 < w
      · simp [processEntries, hint, hw, List.countP_cons, invalidEntryB, ih]
      · simp [processEntries, hint, hw, List.countP_cons, invalidEntryB, ih]

theorem processLocales_preserve (locale d : String) (idx : Int) :
    ∀ (entries : List (String × PyVal)) (base : PyDict (PyDict Int)),
      dget2 base locale d = some idx →
      (∀ lm ∈ entries, lm.1 = locale → ∀ m, lm.2 = PyVal.pdict m →
        ∀ e ∈ m, validEntryB d e = false) →
      dget2 (processLocales base entries).1 locale d = some idx := by
  intro entries
  induction entries with
  | nil => intro base hbase _; exact hbase
  | cons lm rest ih =>
    obtain ⟨loc', mv⟩ := lm
    intro base hbase hno
    have hnorest : ∀ lm ∈ rest, lm.1 = locale → ∀ m, lm.2 = PyVal.pdict m →
        ∀ e ∈ m, validEntryB d e = false :=
      fun lm hm => hno lm (List.mem_cons_of_mem _ hm)
    cases mv with
    | pdict m =>
      simp only [processLocales]
      apply ih
      · by_cases hloc : loc' = locale
        · subst hloc
          obtain ⟨m0, hm0⟩ : ∃ m0, dget base loc' = some m0 := by
            rcases h : dget base loc' with _ | m0
            · rw [dget2, h] at hbase
              cases hbase
            · exact ⟨m0, rfl⟩
          have hin : dget m0 d = some idx := by
            rw [dget2, hm0] at hbase
            exact hbase
          have hval : ∀ e ∈ m, validEntryB d e = false :=
            hno (loc', PyVal.pdict m) (List.mem_cons_self _ _) rfl m rfl
          have hstart : (dget base loc').getD [] = m0 := by rw [hm0]; rfl
          rw [dget2, dget_dset_self]
          show dget (processEntries loc' ((dget base loc').getD []) m).1 d = some idx
          rw [hstart, processEntries_preserve loc' d m m0 hval, hin]
        · rw [dget2, dget_dset_ne _ _ _ _ hloc]
          exact hbase
      · exact hnorest
    | pnone => simp only [processLocales]; exact ih base hbase hnorest
    | pbool b => simp only [processLocales]; exact ih base hbase hnorest
    | pint n => simp only [processLocales]; exact ih base hbase hnorest
    | pstr s => simp only [processLocales]; exact ih base hbase hnorest
    | pdt dtv => simp only [processLocales]; exact ih base hbase hnorest
    | plist xs => simp only [processLocales]; exact ih base hbase hnorest

theorem processLocales_errlen :
    ∀ (entries : List (String × PyVal)) (base : PyDict (PyDict Int)),
      (processLocales base entries).2.length = countInvalid entries := by
  intro entries
  induction entries with
  | nil => intro base; rfl
  | cons lm rest ih =>
    obtain ⟨loc', mv⟩ := lm
    intro base
    cases mv with
    | pdict m =>
      simp [processLocales, countInvalid, processEntries_errlen, ih]
    | pnone => simp [processLocales, countInvalid, ih]; omega
    | pbool b => simp [processLocales, countInvalid, ih]; omega
    | pint n => simp [processLocales, countInvalid, ih]; omega
    | pstr s => simp [processLocales, countInvalid, ih]; omega
    | pdt dtv => simp [processLocales, countInvalid, ih]; omega
    | plist xs => simp [processLocales, countInvalid, ih]; omega

/-- C8: `build_weekday_maps` returns the base table with no errors on blank
text; the base table plus exactly one error on unparseable JSON or a
non-object top level; and for any input every base-table entry survives
unless a valid custom entry for the same locale and normalized day name
overrides it, while each invalid entry contributes exactly one error and
removes nothing. -/
theorem C8_build_weekday_maps :
    (∀ j : JsonText, (pyStrip j.text).data = [] →
      build_weekday_maps j = (baseWeekdayMaps, []))
    ∧ (∀ (j : JsonText) (err : String), (pyStrip j.text).data ≠ [] →
        j.loads = .error err →
        (build_weekday_maps j).1 = baseWeekdayMaps ∧
          (build_weekday_maps j).2.length = 1)
    ∧ (∀ (j : JsonText) (v : PyVal), (pyStrip j.text).data ≠ [] →
        j.loads = .ok v → (∀ entries, v ≠ .pdict entries) →
        (build_weekday_maps j).1 = baseWeekdayMaps ∧
          (build_weekday_maps j).2.length = 1)
    ∧ (∀ (j : JsonText) (locale d : String) (idx : Int),
        dget2 baseWeekdayMaps locale d = some idx →
        hasValidOverrideB j locale d = false →
        dget2 (build_weekday_maps j).1 locale d = some idx)
    ∧ (∀ (j : JsonText) (entries : List (String × PyVal)),
        (pyStrip j.text).data ≠ [] → j.loads = .ok (.pdict entries) →
        (build_weekday_maps j).2.length = countInvalid entries) := by
  have hblank : ∀ j : JsonText, (pyStrip j.text).data ≠ [] →
      (j.text.data.isEmpty || (pyStrip j.text).data.isEmpty) = false := by
    intro j h
    have h1 : (pyStrip j.text).data.isEmpty = false := by
      cases hx : (pyStrip j.text).data with
      | nil => exact absurd hx h
      | cons a l => rfl
    have h2 : j.text.data.isEmpty = false := by
      cases hx : j.text.data with
      | nil =>
        exfalso
        apply h
        simp [pyStrip, pyStripL, hx]
      | cons a l => rfl
    rw [h1, h2]
    rfl
  refine ⟨?_, ?_, ?_, ?_, ?_⟩
  · intro j h
    have : (pyStrip j.text).data.isEmpty = true := by rw [h]; rfl
    simp [build_weekday_maps, this]
  · intro j err h herr
    rw [build_weekday_maps]
    rw [hblank j h, herr]
    exact ⟨rfl, rfl⟩
  · intro j v h hok hnd
    rw [build_weekday_maps]
    rw [hblank j h, hok]
    cases v with
    | pdict entries => exact absurd rfl (hnd entries)
    | pnone => exact ⟨rfl, rfl⟩
    | pbool b => exact ⟨rfl, rfl⟩
    | pint n => exact ⟨rfl, rfl⟩
    | pstr s => exact ⟨rfl, rfl⟩
    | pdt dtv => exact ⟨rfl, rfl⟩
    | plist xs => exact ⟨rfl, rfl⟩
  · intro j locale d idx hbase hover
    by_cases hb : (j.text.data.isEmpty || (pyStrip j.text).data.isEmpty) = true
    · rw [build_weekday_maps, if_pos hb]
      exact hbase
    · rw [build_weekday_maps, if_neg hb]
      cases hl : j.loads with
      | error err => exact hbase
      | ok v =>
        cases v with
        | pdict entries =>
          apply processLocales_preserve locale d idx entries baseWeekdayMaps hbase
          intro lm hlm hlocale m hm e he
          by_contra hc
          have : hasValidOverrideB j locale d = true := by
            rw [hasValidOverrideB, hl]
            refine List.any_eq_true.mpr ⟨lm, hlm, ?_⟩
            rw [hlocale, hm]
            simp only [beq_self_eq_true, Bool.true_and]
            exact List.any_eq_true.mpr ⟨e, he, by simpa using hc⟩
          rw [this] at hover
          cases hover
        | pnone => exact hbase
        | pbool b => exact hbase
        | pint n => exact hbase
        | pstr s => exact hbase
        | pdt dtv => exact hbase
        | plist xs => exact hbase
  · intro j entries h hok
    rw [build_weekday_maps, hblank j h]
    rw [hok]
    exact processLocales_errlen entries baseWeekdayMaps

/-- Witness for C8: the base entry `("en", "monday", 0)` survives a custom
map that only adds `("en", "mondy", 0)`. -/
theorem C8_build_weekday_maps_witness :
    dget2 (build_weekday_maps
      ⟨"x", .ok (.pdict [("en", .pdict [("Mondy", .pint 0)])])⟩).1
        "en" "monday" = some 0 :=
  C8_build_weekday_maps.2.2.2.1
    ⟨"x", .ok (.pdict [("en", .pdict [("Mondy", .pint 0)])])⟩
    "en" "monday" 0 (by decide) (by decide)

/-! ### Lemmas for `normalize_repeat_days` / `normalize_event` (C3) -/

theorem repeatLoop_normalized (ak locale : String) (fms : List (PyDict Int)) :
    ∀ (lines : List String) (seen : List Int),
      (repeatLoop ak locale fms lines seen).2.1 =
        listDedupExcl seen
          (lines.filterMap fun line => findMapWith (normalize_day_key line) fms) := by
  intro lines
  induction lines with
  | nil => intro seen; rfl
  | cons line rest ih =>
    intro seen
    cases hf : findMapWith (normalize_day_key line) fms with
    | none => simp [repeatLoop, hf, List.filterMap_cons, ih]
    | some idx =>
      by_cases hseen : idx ∈ seen
      · simp [repeatLoop, hf, hseen, List.filterMap_cons, listDedupExcl, ih]
      · simp [repeatLoop, hf, hseen, List.filterMap_cons, listDedupExcl, ih]

theorem listDedupExcl_mem :
    ∀ (xs seen : List Int) (x : Int),
      x ∈ listDedupExcl seen xs ↔ x ∈ xs ∧ x ∉ seen := by
  intro xs
  induction xs with
  | nil => intro seen x; simp [listDedupExcl]
  | cons y rest ih =>
    intro seen x
    by_cases hy : y ∈ seen
    · rw [listDedupExcl, if_pos hy, ih]
      constructor
      · rintro ⟨hx, hs⟩
        exact ⟨List.mem_cons_of_mem _ hx, hs⟩
      · rintro ⟨hx, hs⟩
        rcases List.mem_cons.mp hx with hx | hx
        · exact absurd (hx ▸ hy) hs
        · exact ⟨hx, hs⟩
    · rw [listDedupExcl, if_neg hy]
      constructor
      · intro hx
        rcases List.mem_cons.mp hx with hx | hx
        · exact ⟨hx ▸ List.mem_cons_self _ _, hx ▸ hy⟩
        · have := (ih (y :: seen) x).mp hx
          exact ⟨List.mem_cons_of_mem _ this.1,
            fun hs => this.2 (List.mem_cons_of_mem _ hs)⟩
      · rintro ⟨hx, hs⟩
        rcases List.mem_cons.mp hx with hx | hx
        · exact hx ▸ List.mem_cons_self _ _
        · by_cases hxy : x = y
          · exact hxy ▸ List.mem_cons_self _ _
          · exact List.mem_cons_of_mem _
              ((ih (y :: seen) x).mpr ⟨hx, by simp [hxy, hs]⟩)

theorem listDedupExcl_nodup :
    ∀ (xs seen : List Int), (listDedupExcl seen xs).Nodup := by
  intro xs
  induction xs with
  | nil => intro seen; simp [listDedupExcl]
  | cons y rest ih =>
    intro seen
    by_cases hy : y ∈ seen
    · rw [listDedupExcl, if_pos hy]
      exact ih seen
    · rw [listDedupExcl, if_neg hy]
      refine List.nodup_cons.mpr ⟨?_, ih (y :: seen)⟩
      intro hmem
      exact ((listDedupExcl_mem rest (y :: seen) y).mp hmem).2
        (List.mem_cons_self _ _)

theorem listDedupExcl_length_dedup (xs : List Int) :
    (listDedupExcl [] xs).length = xs.dedup.length := by
  have hperm : (listDedupExcl [] xs).Perm xs.dedup := by
    apply List.perm_of_nodup_nodup_toFinset_eq (listDedupExcl_nodup xs [])
      xs.nodup_dedup
    ext x
    simp [List.mem_toFinset, listDedupExcl_mem, List.mem_dedup]
  exact hperm.length_eq

theorem parse_on_off_val (value : PyVal) (fieldName alarm_key : String)
    (errs : List String) :
    (parse_on_off value fieldName alarm_key errs).1 =
      (parse_on_off value fieldName alarm_key []).1 := by
  cases value <;> simp [parse_on_off]
  case pstr s => cases dget STR_ONOFF (pyCasefold (pyStrip s)) <;> simp

theorem normalize_repeat_days_normalized (raw : PyVal)
    (alarm_key locale_option : String) (maps : PyDict (PyDict Int)) :
    (normalize_repeat_days raw alarm_key locale_option maps).1.2.1 =
      listDedupExcl [] (resolvedRepeatDays raw locale_option maps) := by
  rw [normalize_repeat_days, resolvedRepeatDays]
  by_cases hl : (repeatLines (pyValStr (if pyFalsy raw then .pstr "" else raw))).isEmpty
  · have : repeatLines (pyValStr (if pyFalsy raw then .pstr "" else raw)) = [] := by
      simpa using hl
    simp [hl, this, listDedupExcl]
  · simp only [hl, if_false]
    exact repeatLoop_normalized _ _ _ _ []

theorem secondPass_mem (tz : Int) (map_locale : String)
    (maps : PyDict (PyDict Int)) :
    ∀ (vs : List (String × PyDict PyVal)) (key : String) (a : NormalizedAlarm),
      dget (secondPass tz map_locale maps vs).1 key = some a →
      ∃ raw, (key, raw) ∈ vs ∧
        (processAlarm tz map_locale maps key raw).1 = some a := by
  intro vs
  induction vs with
  | nil => intro key a h; simp [secondPass, dget] at h
  | cons v rest ih =>
    obtain ⟨k0, raw0⟩ := v
    intro key a h
    cases hp : (processAlarm tz map_locale maps k0 raw0).1 with
    | some alarm0 =>
      rw [secondPass, hp] at h
      by_cases hk : k0 = key
      · subst hk
        have h2 : alarm0 = a := by simpa [dget] using h
        exact ⟨raw0, List.mem_cons_self _ _, by rw [hp, h2]⟩
      · simp only [dget, if_neg hk] at h
        obtain ⟨raw, hmem, hpa⟩ := ih key a h
        exact ⟨raw, List.mem_cons_of_mem _ hmem, hpa⟩
    | none =>
      rw [secondPass, hp] at h
      obtain ⟨raw, hmem, hpa⟩ := ih key a h
      exact ⟨raw, List.mem_cons_of_mem _ hmem, hpa⟩

theorem processAlarmAfterDate_repeat_inv (tz : Int) (map_locale : String)
    (maps : PyDict (PyDict Int)) (key : String) (raw : PyDict PyVal)
    (label : String) (bt : PyDateTime) (a : NormalizedAlarm)
    (h : (processAlarmAfterDate tz map_locale maps key raw label bt).1 = some a)
    (hrep : a.«repeat» = true) :
    a.repeat_days_normalized =
      (normalize_repeat_days ((dget raw "Repeat Days").getD (.pstr ""))
        key map_locale maps).1.2.1 ∧
      a.repeat_days_normalized ≠ [] := by
  rw [processAlarmAfterDate] at h
  dsimp only at h
  split at h
  · simp at h
  · split at h
    · simp at h
    · split at h
      · simp at h
      · split at h
        · split at h
          · simp at h
          · rename_i hnotempty
            have ha := Option.some.inj h
            rw [← ha]
            exact ⟨rfl, by simpa using hnotempty⟩
        · rename_i hrepflag
          have ha := Option.some.inj h
          rw [← ha] at hrep
          exact absurd hrep hrepflag

theorem processAlarm_to_afterDate (tz : Int) (map_locale : String)
    (maps : PyDict (PyDict Int)) (key : String) (raw : PyDict PyVal)
    (a : NormalizedAlarm)
    (h : (processAlarm tz map_locale maps key raw).1 = some a) :
    ∃ label bt,
      (processAlarmAfterDate tz map_locale maps key raw label bt).1 = some a := by
  rw [processAlarm] at h
  split at h
  · simp at h
  · split at h
    · simp at h
    · exact ⟨_, _, h⟩

theorem processAlarmAfterDate_zero_days (tz : Int) (map_locale : String)
    (maps : PyDict (PyDict Int)) (key : String) (raw : PyDict PyVal)
    (label : String) (bt : PyDateTime)
    (hst : (parse_on_off ((dget raw "State").getD .pnone) "State" key []).1.isSome)
    (hrp : (parse_on_off ((dget raw "Repeat").getD .pnone) "Repeat" key []).1 = some true)
    (hsn : (parse_on_off ((dget raw "Snooze").getD .pnone) "Snooze" key []).1.isSome)
    (hzero : (normalize_repeat_days ((dget raw "Repeat Days").getD (.pstr ""))
      key map_locale maps).1.2.1 = []) :
    (processAlarmAfterDate tz map_locale maps key raw label bt).1 = none ∧
      ("Alarm " ++ key ++ ": repeat is enabled but no valid repeat days were provided")
        ∈ (processAlarmAfterDate tz map_locale maps key raw label bt).2 := by
  obtain ⟨state, hstv⟩ := Option.isSome_iff_exists.mp hst
  have hrp2 : (parse_on_off ((dget raw "Repeat").getD .pnone) "Repeat" key
      (parse_on_off ((dget raw "State").getD .pnone) "State" key []).2).1 = some true := by
    rw [parse_on_off_val]
    exact hrp
  obtain ⟨snz, hsnv⟩ := Option.isSome_iff_exists.mp hsn
  have hsn2 : (parse_on_off ((dget raw "Snooze").getD .pnone) "Snooze" key
      (parse_on_off ((dget raw "Repeat").getD .pnone) "Repeat" key
        (parse_on_off ((dget raw "State").getD .pnone) "State" key []).2).2).1 = some snz := by
    rw [parse_on_off_val]
    exact hsnv
  have hempty : (normalize_repeat_days ((dget raw "Repeat Days").getD (.pstr ""))
      key map_locale maps).1.2.1.isEmpty = true := by
    rw [hzero]
    rfl
  rw [processAlarmAfterDate]
  dsimp only
  rw [hstv, hrp2, hsn2]
  dsimp only
  rw [if_pos rfl, if_pos hempty]
  exact ⟨rfl, by simp⟩

theorem processAlarm_zero_days (tz : Int) (map_locale : String)
    (maps : PyDict (PyDict Int)) (key : String) (raw : PyDict PyVal)
    (bt : PyDateTime)
    (hparse : parse_alarm_datetime (pyValStr ((dget raw "Date").getD .pnone)) tz =
      .ok bt)
    (hdate : ((dget raw "Date").getD .pnone).isNone = false)
    (hst : (parse_on_off ((dget raw "State").getD .pnone) "State" key []).1.isSome)
    (hrp : (parse_on_off ((dget raw "Repeat").getD .pnone) "Repeat" key []).1 = some true)
    (hsn : (parse_on_off ((dget raw "Snooze").getD .pnone) "Snooze" key []).1.isSome)
    (hzero : (normalize_repeat_days ((dget raw "Repeat Days").getD (.pstr ""))
      key map_locale maps).1.2.1 = []) :
    (processAlarm tz map_locale maps key raw).1 = none ∧
      ("Alarm " ++ key ++ ": repeat is enabled but no valid repeat days were provided")
        ∈ (processAlarm tz map_locale maps key raw).2 := by
  rw [processAlarm]
  rw [if_neg (by simp [hdate]), hparse]
  exact processAlarmAfterDate_zero_days tz map_locale maps key raw _ bt
    hst hrp hsn hzero

/-- C3 (amended): every alarm kept by `normalize_event` with repeat enabled
has a non-empty, duplicate-free `repeat_days_normalized` whose length equals
the number of *distinct weekday indices* among the successfully-mapped
repeat-day lines of that alarm's text (distinct day names resolving to an
already-recorded weekday are absorbed without duplicating); and an alarm
whose repeat parses to `on` but whose lines resolve to zero weekdays is
dropped with an explicit parse error. -/
theorem C3_normalize_event_repeat_invariant :
    (∀ (alarms : List (String × PyVal)) (tz : Int) (lopt : String)
        (maps : PyDict (PyDict Int)) (merr : List String) (key : String)
        (a : NormalizedAlarm),
      dget (normalize_event alarms tz lopt maps merr).alarms key = some a →
      a.«repeat» = true →
      a.repeat_days_normalized ≠ [] ∧ a.repeat_days_normalized.Nodup ∧
        ∃ raw, (key, raw) ∈ (firstPass alarms).1 ∧
          a.repeat_days_normalized.length =
            (resolvedRepeatDays ((dget raw "Repeat Days").getD (.pstr ""))
              (normalize_event alarms tz lopt maps merr).map_locale maps).dedup.length)
    ∧ (∀ (tz : Int) (map_locale : String) (maps : PyDict (PyDict Int))
        (key : String) (raw : PyDict PyVal) (bt : PyDateTime),
      parse_alarm_datetime (pyValStr ((dget raw "Date").getD .pnone)) tz = .ok bt →
      ((dget raw "Date").getD .pnone).isNone = false →
      (parse_on_off ((dget raw "State").getD .pnone) "State" key []).1.isSome →
      (parse_on_off ((dget raw "Repeat").getD .pnone) "Repeat" key []).1 = some true →
      (parse_on_off ((dget raw "Snooze").getD .pnone) "Snooze" key []).1.isSome →
      (normalize_repeat_days ((dget raw "Repeat Days").getD (.pstr ""))
        key map_locale maps).1.2.1 = [] →
      (processAlarm tz map_locale maps key raw).1 = none ∧
        ("Alarm " ++ key ++ ": repeat is enabled but no valid repeat days were provided")
          ∈ (processAlarm tz map_locale maps key raw).2) := by
  constructor
  · intro alarms tz lopt maps merr key a h hrep
    have hsp : dget (secondPass tz
        (detect_weekday_locale (firstPass alarms).2.2 lopt maps) maps
        (firstPass alarms).1).1 key = some a := h
    obtain ⟨raw, hmem, hpa⟩ := secondPass_mem _ _ _ _ _ _ hsp
    obtain ⟨label, bt, hafter⟩ := processAlarm_to_afterDate _ _ _ _ _ _ hpa
    obtain ⟨heq, hne⟩ :=
      processAlarmAfterDate_repeat_inv _ _ _ _ _ _ _ _ hafter hrep
    have hloc : (normalize_event alarms tz lopt maps merr).map_locale =
        detect_weekday_locale (firstPass alarms).2.2 lopt maps := rfl
    refine ⟨hne, ?_, raw, hmem, ?_⟩
    · rw [heq, normalize_repeat_days_normalized]
      exact listDedupExcl_nodup _ _
    · rw [heq, hloc, normalize_repeat_days_normalized]
      exact listDedupExcl_length_dedup _
  · intro tz map_locale maps key raw bt hparse hdate hst hrp hsn hzero
    exact processAlarm_zero_days tz map_locale maps key raw bt hparse hdate
      hst hrp hsn hzero

/-- Witness for C3: a repeat alarm with lines `"Mon"`/`"Monday"` is kept
with non-empty, duplicate-free normalized days. -/
theorem C3_normalize_event_repeat_invariant_witness :
    ∀ a : NormalizedAlarm,
      dget (normalize_event
        [("1", .pdict [("Date", .pstr "18.09.2025 05:15"), ("State", .pstr "on"),
          ("Repeat", .pstr "on"), ("Snooze", .pstr "off"),
          ("Repeat Days", .pstr "Mon\nMonday")])]
        7200000000 "auto" baseWeekdayMaps []).alarms "1" = some a →
      a.«repeat» = true →
      a.repeat_days_normalized ≠ [] ∧ a.repeat_days_normalized.Nodup ∧
        ∃ raw, ("1", raw) ∈ (firstPass
          [("1", .pdict [("Date", .pstr "18.09.2025 05:15"), ("State", .pstr "on"),
            ("Repeat", .pstr "on"), ("Snooze", .pstr "off"),
            ("Repeat Days", .pstr "Mon\nMonday")])]).1 ∧
          a.repeat_days_normalized.length =
            (resolvedRepeatDays ((dget raw "Repeat Days").getD (.pstr ""))
              (normalize_event
                [("1", .pdict [("Date", .pstr "18.09.2025 05:15"), ("State", .pstr "on"),
                  ("Repeat", .pstr "on"), ("Snooze", .pstr "off"),
                  ("Repeat Days", .pstr "Mon\nMonday")])]
                7200000000 "auto" baseWeekdayMaps []).map_locale
              baseWeekdayMaps).dedup.length :=
  fun a ha hrep =>
    C3_normalize_event_repeat_invariant.1 _ 7200000000 "auto" baseWeekdayMaps []
      "1" a ha hrep

/-- Counterexample for C3 as literally stated: the repeat-days text
`"Mon\nMonday"` supplies two distinct day names that both successfully map,
yet the kept alarm's `repeat_days_normalized` has length 1 (deduplication is
by mapped weekday index, not by day name). -/
theorem C3_normalize_event_counterexample :
    ((dget (normalize_event
        [("1", .pdict [("Date", .pstr "18.09.2025 05:15"), ("State", .pstr "on"),
          ("Repeat", .pstr "on"), ("Snooze", .pstr "off"),
          ("Repeat Days", .pstr "Mon\nMonday")])]
        7200000000 "auto" baseWeekdayMaps []).alarms "1").map
        (fun a => (a.«repeat», a.repeat_days_normalized.length)) = some (true, 1))
    ∧ repeatLines "Mon\nMonday" = ["Mon", "Monday"]
    ∧ ("Mon" : String) ≠ "Monday"
    ∧ (∀ line ∈ repeatLines "Mon\nMonday",
        (findMapWith (normalize_day_key line)
          (fallbackMapsFor (normalize_event
            [("1", .pdict [("Date", .pstr "18.09.2025 05:15"), ("State", .pstr "on"),
              ("Repeat", .pstr "on"), ("Snooze", .pstr "off"),
              ("Repeat Days", .pstr "Mon\nMonday")])]
            7200000000 "auto" baseWeekdayMaps []).map_locale
            baseWeekdayMaps)).isSome) := by
  refine ⟨?_, ?_, ?_, ?_⟩ <;> decide

/-! ### C7: the refresh-timeout token protocol -/

/-- C7: a refresh-timeout callback with a non-matching token leaves the
state unchanged; a matching token sets `refresh_problem` and clears the
token and timer handle; processing an alarm-data event clears the problem
flag and token, after which any timeout callback (necessarily stale) leaves
the state unchanged. -/
theorem C7_refresh_timeout_protocol :
    (∀ (s : PersonState) (token : String),
      s.refresh_timeout_token ≠ some token → markRefreshTimeout s token = s)
    ∧ (∀ (s : PersonState) (token : String),
      s.refresh_timeout_token = some token →
      (markRefreshTimeout s token).refresh_problem = true ∧
        (markRefreshTimeout s token).refresh_timeout_token = none ∧
        (markRefreshTimeout s token).refresh_timer_cancel = none)
    ∧ (∀ (s : PersonState) (person : String) (alarms : List (String × PyVal))
        (tz : Int) (lopt : String) (maps : PyDict (PyDict Int))
        (merr : List String) (reference_now : PyDateTime)
        (raw_event : PyDict PyVal),
      (process_event s person alarms tz lopt maps merr reference_now
          raw_event).refresh_problem = false ∧
        (process_event s person alarms tz lopt maps merr reference_now
          raw_event).refresh_timeout_token = none ∧
        ∀ token : String,
          markRefreshTimeout
            (process_event s person alarms tz lopt maps merr reference_now
              raw_event) token =
            process_event s person alarms tz lopt maps merr reference_now
              raw_event) := by
  refine ⟨?_, ?_, ?_⟩
  · intro s token h
    rw [markRefreshTimeout, if_pos h]
  · intro s token h
    rw [markRefreshTimeout, if_neg (by simp [h])]
    exact ⟨rfl, rfl, rfl⟩
  · intro s person alarms tz lopt maps merr reference_now raw_event
    refine ⟨rfl, rfl, ?_⟩
    intro token
    rw [markRefreshTimeout, if_pos (by simp [process_event, scheduleRollover])]

/-- Witness for C7: a state with an armed token for which a stale token is
discarded, the live token fires, and an event clears everything. -/
theorem C7_refresh_timeout_protocol_witness :
    markRefreshTimeout
        { slug := "p", person := "p", refresh_timeout_token := some "tok1",
          refresh_timer_cancel := some () } "tok2" =
      { slug := "p", person := "p", refresh_timeout_token := some "tok1",
        refresh_timer_cancel := some () } ∧
    (markRefreshTimeout
        { slug := "p", person := "p", refresh_timeout_token := some "tok1",
          refresh_timer_cancel := some () } "tok1").refresh_problem = true :=
  ⟨C7_refresh_timeout_protocol.1 _ "tok2" (by simp),
    (C7_refresh_timeout_protocol.2.1 _ "tok1" rfl).1⟩

/-! ### Lemmas for `parse_alarm_datetime` (C4) -/

theorem dtutil_parse_datetime_aware (v : PyVal) (p : PyDateTime)
    (h : dtutil_parse_datetime v = some p) : p.tz.isSome = true := by
  cases v with
  | pdt d =>
    rw [dtutil_parse_datetime] at h
    cases hd : d.tz with
    | none =>
      rw [hd] at h
      simp at h
      rw [← h]
      rfl
    | some o =>
      rw [hd] at h
      simp at h
      rw [← h, hd]
      rfl
  | pstr s =>
    rw [dtutil_parse_datetime] at h
    dsimp only at h
    split at h
    · cases h
    · rename_i dtv _
      cases hd : dtv.tz with
      | none =>
        rw [hd] at h
        simp at h
        rw [← h]
        rfl
      | some o =>
        rw [hd] at h
        simp at h
        rw [← h, hd]
        rfl
  | pnone => cases h
  | pbool b => cases h
  | pint n => cases h
  | plist xs => cases h
  | pdict xs => cases h

theorem strptimeDMY_naive (s : String) (p : PyDateTime)
    (h : strptimeDMY s = some p) : p.tz = none := by
  rw [strptimeDMY] at h
  simp only [bind, Option.bind_eq_some] at h
  obtain ⟨⟨d, r1⟩, -, r2, -, ⟨mo, r3⟩, -, r4, -, ⟨y, r5⟩, -, r6, -,
    ⟨hh, r7⟩, -, r8, -, ⟨mi, r9⟩, -, h⟩ := h
  split at h
  · cases h
    rfl
  · cases h

theorem strptimeMDY12_naive (s : String) (p : PyDateTime)
    (h : strptimeMDY12 s = some p) : p.tz = none := by
  rw [strptimeMDY12] at h
  simp only [bind, Option.bind_eq_some] at h
  obtain ⟨⟨mo, r1⟩, -, r2, -, ⟨d, r3⟩, -, r4, -, ⟨y, r5⟩, -, r6, -,
    ⟨hh, r7⟩, -, r8, -, ⟨mi, r9⟩, -, r10, -, pm, -, h⟩ := h
  split at h
  · cases h
    rfl
  · cases h

theorem astimezoneTo_tz (d : PyDateTime) (tz : Int) :
    (astimezoneTo d tz).tz = some tz := rfl

theorem localize_toInstant (p : PyDateTime) (tz : Int) (hp : p.tz = none) :
    (localize p tz).toInstant = p.toInstant - tz := by
  rw [localize, PyDateTime.toInstant, PyDateTime.toInstant]
  simp [hp, PyDateTime.timeUs]

/-- C4: `parse_alarm_datetime` fails exactly when the stripped text is empty
(missing-value error) or none of the three formats accepts it (unsupported
format error carrying the stripped text, with the 12-hour format attempted
only when the uppercased text contains `AM`/`PM`); on success the result is
the first successful parse converted into the supplied timezone, with a
naive parse localized as a wall-clock reading in the supplied timezone
(instant = wall-clock value minus the offset) rather than reinterpreted as
UTC; results of the ISO path always already carry an offset. -/
theorem C4_parse_alarm_datetime (value : String) (tz : Int) :
    ((parse_alarm_datetime value tz).isOk = true ↔
      (pyStrip value).data ≠ [] ∧
        ((dtutil_parse_datetime (.pstr (pyStrip value))).isSome ∨
          (strptimeDMY (pyStrip value)).isSome ∨
          ((pyContains (pyUpper (pyStrip value)) "AM" ||
              pyContains (pyUpper (pyStrip value)) "PM") = true ∧
            (strptimeMDY12 (pyStrip value)).isSome)))
    ∧ ((pyStrip value).data = [] →
        parse_alarm_datetime value tz = .error .missingValue)
    ∧ ((pyStrip value).data ≠ [] →
        dtutil_parse_datetime (.pstr (pyStrip value)) = none →
        strptimeDMY (pyStrip value) = none →
        ((pyContains (pyUpper (pyStrip value)) "AM" ||
            pyContains (pyUpper (pyStrip value)) "PM") = false ∨
          strptimeMDY12 (pyStrip value) = none) →
        parse_alarm_datetime value tz = .error (.unsupportedFormat (pyStrip value)))
    ∧ (∀ p : PyDateTime, (pyStrip value).data ≠ [] →
        dtutil_parse_datetime (.pstr (pyStrip value)) = some p →
        p.tz.isSome = true ∧
          parse_alarm_datetime value tz = .ok (astimezoneTo p tz) ∧
          (astimezoneTo p tz).tz = some tz)
    ∧ (∀ p : PyDateTime, (pyStrip value).data ≠ [] →
        dtutil_parse_datetime (.pstr (pyStrip value)) = none →
        strptimeDMY (pyStrip value) = some p →
        p.tz = none ∧
          parse_alarm_datetime value tz = .ok (astimezoneTo (localize p tz) tz) ∧
          (localize p tz).toInstant = p.toInstant - tz ∧
          (astimezoneTo (localize p tz) tz).tz = some tz)
    ∧ (∀ p : PyDateTime, (pyStrip value).data ≠ [] →
        dtutil_parse_datetime (.pstr (pyStrip value)) = none →
        strptimeDMY (pyStrip value) = none →
        (pyContains (pyUpper (pyStrip value)) "AM" ||
          pyContains (pyUpper (pyStrip value)) "PM") = true →
        strptimeMDY12 (pyStrip value) = some p →
        p.tz = none ∧
          parse_alarm_datetime value tz = .ok (astimezoneTo (localize p tz) tz) ∧
          (localize p tz).toInstant = p.toInstant - tz ∧
          (astimezoneTo (localize p tz) tz).tz = some tz) := by
  have hmempty : ∀ h : (pyStrip value).data = [],
      parse_alarm_datetime value tz = .error .missingValue := by
    intro h
    rw [parse_alarm_datetime]
    simp [h]
  have hisocase : ∀ p : PyDateTime, (pyStrip value).data ≠ [] →
      dtutil_parse_datetime (.pstr (pyStrip value)) = some p →
      parse_alarm_datetime value tz = .ok (astimezoneTo p tz) := by
    intro p hne hiso
    have haware := dtutil_parse_datetime_aware _ _ hiso
    rw [parse_alarm_datetime]
    simp [hne, hiso, haware]
  have hdmycase : ∀ p : PyDateTime, (pyStrip value).data ≠ [] →
      dtutil_parse_datetime (.pstr (pyStrip value)) = none →
      strptimeDMY (pyStrip value) = some p →
      parse_alarm_datetime value tz = .ok (astimezoneTo (localize p tz) tz) := by
    intro p hne hiso hdmy
    have hnaive := strptimeDMY_naive _ _ hdmy
    rw [parse_alarm_datetime]
    simp [hne, hiso, hdmy, hnaive]
  have hmdycase : ∀ p : PyDateTime, (pyStrip value).data ≠ [] →
      dtutil_parse_datetime (.pstr (pyStrip value)) = none →
      strptimeDMY (pyStrip value) = none →
      (pyContains (pyUpper (pyStrip value)) "AM" ||
        pyContains (pyUpper (pyStrip value)) "PM") = true →
      strptimeMDY12 (pyStrip value) = some p →
      parse_alarm_datetime value tz = .ok (astimezoneTo (localize p tz) tz) := by
    intro p hne hiso hdmy ham hmdy
    have hnaive := strptimeMDY12_naive _ _ hmdy
    rw [parse_alarm_datetime]
    simp [hne, hiso, hdmy, ham, hmdy, hnaive]
  have hfailcase : (pyStrip value).data ≠ [] →
      dtutil_parse_datetime (.pstr (pyStrip value)) = none →
      strptimeDMY (pyStrip value) = none →
      ((pyContains (pyUpper (pyStrip value)) "AM" ||
          pyContains (pyUpper (pyStrip value)) "PM") = false ∨
        strptimeMDY12 (pyStrip value) = none) →
      parse_alarm_datetime value tz = .error (.unsupportedFormat (pyStrip value)) := by
    intro hne hiso hdmy hrest
    rw [parse_alarm_datetime]
    rcases hrest with ham | hmdy
    · simp [hne, hiso, hdmy, ham]
    · by_cases ham : (pyContains (pyUpper (pyStrip value)) "AM" ||
        pyContains (pyUpper (pyStrip value)) "PM") = true
      · simp [hne, hiso, hdmy, ham, hmdy]
      · simp at ham
        simp [hne, hiso, hdmy, ham]
  refine ⟨?_, hmempty, hfailcase,
    fun p hne hiso => ⟨dtutil_parse_datetime_aware _ _ hiso, hisocase p hne hiso, rfl⟩,
    fun p hne hiso hdmy => ⟨strptimeDMY_naive _ _ hdmy, hdmycase p hne hiso hdmy,
      localize_toInstant p tz (strptimeDMY_naive _ _ hdmy), rfl⟩,
    fun p hne hiso hdmy ham hmdy => ⟨strptimeMDY12_naive _ _ hmdy,
      hmdycase p hne hiso hdmy ham hmdy,
      localize_toInstant p tz (strptimeMDY12_naive _ _ hmdy), rfl⟩⟩
  constructor
  · intro hok
    by_cases hne : (pyStrip value).data = []
    · rw [hmempty hne] at hok
      cases hok
    · refine ⟨hne, ?_⟩
      cases hiso : dtutil_parse_datetime (.pstr (pyStrip value)) with
      | some p => exact Or.inl (by simp [hiso])
      | none =>
        cases hdmy : strptimeDMY (pyStrip value) with
        | some p => exact Or.inr (Or.inl (by simp [hdmy]))
        | none =>
          cases ham : (pyContains (pyUpper (pyStrip value)) "AM" ||
              pyContains (pyUpper (pyStrip value)) "PM") with
          | false =>
            rw [hfailcase hne hiso hdmy (Or.inl ham)] at hok
            cases hok
          | true =>
            cases hmdy : strptimeMDY12 (pyStrip value) with
            | none =>
              rw [hfailcase hne hiso hdmy (Or.inr hmdy)] at hok
              cases hok
            | some p => exact Or.inr (Or.inr ⟨rfl, by simp [hmdy]⟩)
  · rintro ⟨hne, hsome⟩
    rcases hsome with hiso | hdmy | ⟨ham, hmdy⟩
    · obtain ⟨p, hp⟩ := Option.isSome_iff_exists.mp hiso
      rw [hisocase p hne hp]
      rfl
    · cases hiso : dtutil_parse_datetime (.pstr (pyStrip value)) with
      | some p =>
        rw [hisocase p hne hiso]
        rfl
      | none =>
        obtain ⟨p, hp⟩ := Option.isSome_iff_exists.mp hdmy
        rw [hdmycase p hne hiso hp]
        rfl
    · cases hiso : dtutil_parse_datetime (.pstr (pyStrip value)) with
      | some p =>
        rw [hisocase p hne hiso]
        rfl
      | none =>
        cases hdmy : strptimeDMY (pyStrip value) with
        | some p =>
          rw [hdmycase p hne hiso hdmy]
          rfl
        | none =>
          obtain ⟨p, hp⟩ := Option.isSome_iff_exists.mp hmdy
          rw [hmdycase p hne hiso hdmy ham hp]
          rfl

/-- Witness for C4: the repository's own `18.09.2025 05:15` test vector in
the Warsaw summer offset goes through the day.month.year format and is
localized as wall-clock. -/
theorem C4_parse_alarm_datetime_witness :
    (⟨2025, 9, 18, 5, 15, 0, 0, none⟩ : PyDateTime).tz = none ∧
      parse_alarm_datetime "18.09.2025 05:15" 7200000000 =
        .ok (astimezoneTo (localize ⟨2025, 9, 18, 5, 15, 0, 0, none⟩ 7200000000)
          7200000000) ∧
      (localize (⟨2025, 9, 18, 5, 15, 0, 0, none⟩ : PyDateTime) 7200000000).toInstant =
        (⟨2025, 9, 18, 5, 15, 0, 0, none⟩ : PyDateTime).toInstant - 7200000000 ∧
      (astimezoneTo (localize (⟨2025, 9, 18, 5, 15, 0, 0, none⟩ : PyDateTime)
        7200000000) 7200000000).tz = some 7200000000 :=
  (C4_parse_alarm_datetime "18.09.2025 05:15" 7200000000).2.2.2.2.1
    ⟨2025, 9, 18, 5, 15, 0, 0, none⟩ (by decide) (by decide) (by decide)

/-! ### Digit-rendering round-trips (towards the C6 storage round-trip) -/

theorem digitChar_isDigit (n : Nat) (h : n ≤ 9) : (digitChar n).isDigit = true := by
  interval_cases n <;> decide

theorem digitChar_not_space (n : Nat) (h : n ≤ 9) : isPySpace (digitChar n) = false := by
  interval_cases n <;> decide

theorem digitChar_ne_upperZ (n : Nat) (h : n ≤ 9) : digitChar n ≠ 'Z' := by
  interval_cases n <;> decide

theorem charDigitVal_digitChar (n : Nat) (h : n ≤ 9) :
    charDigitVal (digitChar n) = n := by
  interval_cases n <;> decide

theorem readDigitsAux_digit (k acc m : Nat) (hm : m ≤ 9) (l : List Char) :
    readDigitsAux (k + 1) acc (digitChar m :: l) =
      readDigitsAux k (acc * 10 + charDigitVal (digitChar m)) l := by
  simp [readDigitsAux, digitChar_isDigit m hm]

theorem readDigitsAux_zero (acc : Nat) (l : List Char) :
    readDigitsAux 0 acc l = some (acc, l) := rfl

theorem readDigits_pad2 (n : Nat) (h : n ≤ 99) (rest : List Char) :
    readDigits 2 (pad2 n ++ rest) = some (n, rest) := by
  have h1 : n / 10 ≤ 9 := by omega
  have h2 : n % 10 ≤ 9 := by omega
  simp only [readDigits, pad2, List.cons_append, List.nil_append,
    readDigitsAux_digit _ _ _ h1, readDigitsAux_digit _ _ _ h2,
    charDigitVal_digitChar _ h1, charDigitVal_digitChar _ h2, readDigitsAux_zero,
    Option.some.injEq, Prod.mk.injEq, and_true]
  omega

theorem readDigits_pad4 (n : Nat) (h : n ≤ 9999) (rest : List Char) :
    readDigits 4 (pad4 n ++ rest) = some (n, rest) := by
  have h1 : n / 1000 ≤ 9 := by omega
  have h2 : n / 100 % 10 ≤ 9 := by omega
  have h3 : n / 10 % 10 ≤ 9 := by omega
  have h4 : n % 10 ≤ 9 := by omega
  simp only [readDigits, pad4, List.cons_append, List.nil_append,
    readDigitsAux_digit _ _ _ h1, readDigitsAux_digit _ _ _ h2,
    readDigitsAux_digit _ _ _ h3, readDigitsAux_digit _ _ _ h4,
    charDigitVal_digitChar _ h1, charDigitVal_digitChar _ h2,
    charDigitVal_digitChar _ h3, charDigitVal_digitChar _ h4, readDigitsAux_zero,
    Option.some.injEq, Prod.mk.injEq, and_true]
  omega

theorem expectChar_cons (c : Char) (l : List Char) : expectChar c (c :: l) = some l := by
  simp [expectChar]

theorem takeWhile_append_split (p : Char → Bool) :
    ∀ (l1 : List Char) (c : Char) (l2 : List Char),
      (∀ x ∈ l1, p x = true) → p c = false →
      (l1 ++ c :: l2).takeWhile p = l1 ∧ (l1 ++ c :: l2).dropWhile p = c :: l2 := by
  intro l1
  induction l1 with
  | nil =>
    intro c l2 _ hc
    simp [List.takeWhile_cons, List.dropWhile_cons, hc]
  | cons a t ih =>
    intro c l2 h hc
    have ha : p a = true := h a (by simp)
    have ht := ih c l2 (fun x hx => h x (by simp [hx])) hc
    simp [List.takeWhile_cons, List.dropWhile_cons, ha, ht.1, ht.2]

theorem digitsVal_pad6 (n : Nat) (h : n ≤ 999999) : digitsVal (pad6 n) = n := by
  have h1 : n / 100000 ≤ 9 := by omega
  have h2 : n / 10000 % 10 ≤ 9 := by omega
  have h3 : n / 1000 % 10 ≤ 9 := by omega
  have h4 : n / 100 % 10 ≤ 9 := by omega
  have h5 : n / 10 % 10 ≤ 9 := by omega
  have h6 : n % 10 ≤ 9 := by omega
  simp only [digitsVal, pad6, List.foldl_cons, List.foldl_nil,
    charDigitVal_digitChar _ h1, charDigitVal_digitChar _ h2,
    charDigitVal_digitChar _ h3, charDigitVal_digitChar _ h4,
    charDigitVal_digitChar _ h5, charDigitVal_digitChar _ h6]
  omega

theorem pad6_all_digit (n : Nat) (h : n ≤ 999999) : ∀ c ∈ pad6 n, c.isDigit = true := by
  intro c hc
  simp only [pad6, List.mem_cons, List.not_mem_nil, or_false] at hc
  rcases hc with rfl|rfl|rfl|rfl|rfl|rfl <;> exact digitChar_isDigit _ (by omega)

theorem pad6_length (n : Nat) : (pad6 n).length = 6 := rfl

theorem offsetChars_some (off : Int) :
    offsetChars (some off) = (if off < 0 then '-' else '+') ::
      (pad2 (off.natAbs / 60000000 / 60) ++ ':' :: pad2 (off.natAbs / 60000000 % 60)) :=
  rfl

theorem parseOffsetHM_pads (oh om : Nat) (h1 : oh ≤ 23) (h2 : om ≤ 59) :
    parseOffsetHM (pad2 oh ++ ':' :: pad2 om) =
      some ((oh * 3600 + om * 60 : Nat) * 1000000) := by
  have e1 : readDigits 2 (pad2 oh ++ ':' :: pad2 om) = some (oh, ':' :: pad2 om) :=
    readDigits_pad2 oh (by omega) _
  have e2 : readDigits 2 (pad2 om) = some (om, []) := by
    simpa using readDigits_pad2 om (by omega) []
  simp [parseOffsetHM, e1, e2, expectChar_cons, h1, h2]

theorem parseTzTail_offsetChars (off : Int) (hmod : off.emod 60000000 = 0)
    (habs : off.natAbs < 86400000000) :
    parseTzTail (offsetChars (some off)) = some (some off) := by
  have hd : off.natAbs % 60000000 = 0 := by
    have hdvd : (60000000 : Int) ∣ off := Int.dvd_of_emod_eq_zero hmod
    have h2 : (60000000 : Nat) ∣ off.natAbs := Int.natAbs_dvd_natAbs.mpr (by simpa using hdvd)
    omega
  have hohb : off.natAbs / 60000000 / 60 ≤ 23 := by omega
  have homb : off.natAbs / 60000000 % 60 ≤ 59 := by omega
  rw [offsetChars_some]
  by_cases hoff : off < 0
  · simp only [hoff, if_true, parseTzTail,
      parseOffsetHM_pads _ _ hohb homb, Option.map_some]
    refine congrArg some (congrArg some ?_)
    omega
  · simp only [hoff, if_false, parseTzTail,
      parseOffsetHM_pads _ _ hohb homb, Option.map_some]
    refine congrArg some (congrArg some ?_)
    omega

/-! ### `isoformat` / `fromisoformat` round-trip -/

theorem getLastOpt_mem : ∀ (l : List Char) (a : Char), l.getLast? = some a → a ∈ l := by
  intro l
  induction l with
  | nil => intro a h; cases h
  | cons x t ih =>
    intro a h
    cases t with
    | nil =>
      simp only [List.getLast?_singleton, Option.some.injEq] at h
      simp [h]
    | cons y t2 =>
      rw [List.getLast?_cons_cons] at h
      exact List.mem_cons_of_mem _ (ih a h)

theorem pyStripL_of_ends (l : List Char)
    (h1 : ∀ c, l.head? = some c → isPySpace c = false)
    (h2 : ∀ c, l.getLast? = some c → isPySpace c = false) :
    pyStripL l = l := by
  have e1 : l.dropWhile isPySpace = l := by
    cases l with
    | nil => rfl
    | cons a t =>
      rw [List.dropWhile_cons, h1 a rfl]
      simp
  have e2 : l.reverse.dropWhile isPySpace = l.reverse := by
    cases hr : l.reverse with
    | nil => rfl
    | cons a t =>
      have ha : l.getLast? = some a := by
        rw [← List.head?_reverse, hr]
        rfl
      rw [List.dropWhile_cons, h2 a ha]
      simp
  rw [pyStripL, e1, e2, List.reverse_reverse]

theorem daysInMonth_le (y m : Int) : daysInMonth y m ≤ 31 := by
  rw [daysInMonth]
  split_ifs <;> omega

theorem parseTimePart_iso (y mo dd H Mi S Us : Nat) (off : Int)
    (hH : H ≤ 23) (hMi : Mi ≤ 59) (hS : S ≤ 59) (hUs : Us ≤ 999999)
    (hmod : off.emod 60000000 = 0) (habs : off.natAbs < 86400000000) :
    parseTimePart y mo dd
      (pad2 H ++ ':' :: (pad2 Mi ++ ':' ::
        (pad2 S ++ (if Us = 0 then [] else '.' :: pad6 Us) ++ offsetChars (some off)))) =
      some (mkDT y mo dd H Mi S Us (some off)) := by
  have hsign : (if off < 0 then '-' else '+').isDigit = false ∧
      (if off < 0 then '-' else '+') ≠ '.' ∧ (if off < 0 then '-' else '+') ≠ ',' := by
    by_cases hoff : off < 0 <;> simp [hoff]
  have hex : ∃ sc st, offsetChars (some off) = sc :: st ∧ sc.isDigit = false ∧
      sc ≠ '.' ∧ sc ≠ ',' :=
    ⟨_, _, offsetChars_some off, hsign.1, hsign.2.1, hsign.2.2⟩
  obtain ⟨sc, st, hoc2, hscd, hsdot, hscom⟩ := hex
  have htzv2 : parseTzTail (sc :: st) = some (some off) := by
    rw [← hoc2]; exact parseTzTail_offsetChars off hmod habs
  rw [hoc2, List.append_assoc]
  by_cases hUs0 : Us = 0
  · subst hUs0
    rw [parseTimePart, readDigits_pad2 H (by omega)]
    simp only [bind, Option.bind]
    rw [if_pos hH]
    rw [readDigits_pad2 Mi (by omega)]
    simp only [bind, Option.bind]
    rw [if_pos hMi]
    rw [readDigits_pad2 S (by omega)]
    simp only [bind, Option.bind]
    rw [if_pos hS]
    simp only [if_true, List.nil_append]
    split
    · next r6 heq => injection heq with hcc _; exact absurd hcc hsdot
    · next r6 heq => injection heq with hcc _; exact absurd hcc hscom
    · rw [htzv2]
      rfl
  · rw [if_neg hUs0, List.cons_append]
    have hsplit := takeWhile_append_split Char.isDigit (pad6 Us) sc st
      (pad6_all_digit Us (by omega)) hscd
    have hpe : (pad6 Us).isEmpty = false := rfl
    have htk : (pad6 Us).take 6 = pad6 Us := by
      rw [← pad6_length Us]
      exact List.take_length _
    rw [parseTimePart, readDigits_pad2 H (by omega)]
    simp only [bind, Option.bind]
    rw [if_pos hH]
    rw [readDigits_pad2 Mi (by omega)]
    simp only [bind, Option.bind]
    rw [if_pos hMi]
    rw [readDigits_pad2 S (by omega)]
    simp only [bind, Option.bind]
    rw [if_pos hS]
    simp [parseFracTail, hsplit.1, hsplit.2, hpe, htk, pad6_length,
      digitsVal_pad6 Us (by omega), htzv2]

theorem fromisoParse_iso (d : PyDateTime) (off : Int) (htz : d.tz = some off)
    (hv : d.ValidB = true) : fromisoParse (isoformatL d 'T') = some d := by
  obtain ⟨Y, Mo, Dy, Hh, Mii, Se, Uss, Tzf⟩ := d
  have htzf : Tzf = some off := htz
  subst htzf
  simp only [PyDateTime.ValidB, Bool.and_eq_true, decide_eq_true_eq] at hv
  obtain ⟨⟨⟨⟨⟨⟨⟨⟨hy1, hy2⟩, hm1, hm2⟩, hd1, hd2⟩, hh1, hh2⟩, hmi1, hmi2⟩, hs1, hs2⟩,
    hu1, hu2⟩, ho1, ho2⟩ := hv
  have hYc : ((Y.toNat : Nat) : Int) = Y := Int.toNat_of_nonneg (by omega)
  have hMoc : ((Mo.toNat : Nat) : Int) = Mo := Int.toNat_of_nonneg (by omega)
  have hDyc : ((Dy.toNat : Nat) : Int) = Dy := Int.toNat_of_nonneg (by omega)
  have hHhc : ((Hh.toNat : Nat) : Int) = Hh := Int.toNat_of_nonneg (by omega)
  have hMic : ((Mii.toNat : Nat) : Int) = Mii := Int.toNat_of_nonneg (by omega)
  have hSec : ((Se.toNat : Nat) : Int) = Se := Int.toNat_of_nonneg (by omega)
  have hUsc : ((Uss.toNat : Nat) : Int) = Uss := Int.toNat_of_nonneg (by omega)
  have hifeq : (if Uss = 0 then ([] : List Char) else '.' :: pad6 Uss.toNat) =
      (if Uss.toNat = 0 then [] else '.' :: pad6 Uss.toNat) := by
    by_cases hms : Uss = 0
    · simp [hms]
    · have hms2 : Uss.toNat ≠ 0 := by omega
      simp [hms, hms2]
  have hc5 : ((Dy.toNat : Nat) : Int) ≤ daysInMonth ((Y.toNat : Nat) : Int)
      ((Mo.toNat : Nat) : Int) := by
    rw [hYc, hMoc, hDyc]; exact hd2
  have hd31 : Dy ≤ 31 := le_trans hd2 (daysInMonth_le Y Mo)
  have hTP := parseTimePart_iso Y.toNat Mo.toNat Dy.toNat Hh.toNat Mii.toNat Se.toNat
    Uss.toNat off (by omega) (by omega) (by omega) (by omega) ho1 ho2
  rw [isoformatL]
  dsimp only
  rw [hifeq, fromisoParse, readDigits_pad4 Y.toNat (by omega)]
  simp only [bind, Option.some_bind]
  rw [expectChar_cons]
  simp only [Option.some_bind]
  rw [readDigits_pad2 Mo.toNat (by omega)]
  simp only [Option.some_bind]
  rw [expectChar_cons]
  simp only [Option.some_bind]
  rw [readDigits_pad2 Dy.toNat (by omega)]
  simp only [Option.some_bind]
  rw [if_pos (⟨by omega, by omega, by omega, by omega, hc5⟩ :
    1 ≤ Y.toNat ∧ 1 ≤ Mo.toNat ∧ Mo.toNat ≤ 12 ∧ 1 ≤ Dy.toNat ∧
      ((Dy.toNat : Nat) : Int) ≤ daysInMonth ((Y.toNat : Nat) : Int) ((Mo.toNat : Nat) : Int))]
  rw [hTP]
  simp [mkDT, hYc, hMoc, hDyc, hHhc, hMic, hSec, hUsc]

theorem isoformatL_getLast (d : PyDateTime) (off : Int) (htz : d.tz = some off) :
    (isoformatL d 'T').getLast? =
      some (digitChar (off.natAbs / 60000000 % 60 % 10)) := by
  by_cases hms : d.microsecond = 0 <;>
    simp [isoformatL, htz, offsetChars_some, pad2, pad4, pad6, hms,
      List.getLast?_cons_cons, List.getLast?_singleton]

theorem dtutil_parse_isoformat (d : PyDateTime) (off : Int) (htz : d.tz = some off)
    (hv : d.ValidB = true) :
    dtutil_parse_datetime (.pstr (isoformat d)) = some d := by
  have hyear : 1 ≤ d.year ∧ d.year ≤ 9999 := by
    simp only [PyDateTime.ValidB, Bool.and_eq_true, decide_eq_true_eq] at hv
    exact ⟨hv.1.1.1.1.1.1.1.1, hv.1.1.1.1.1.1.1.2⟩
  have hhead : (isoformatL d 'T').head? = some (digitChar (d.year.toNat / 1000)) := rfl
  have hlast := isoformatL_getLast d off htz
  have hstrip : pyStripL (isoformat d).data = isoformatL d 'T' := by
    apply pyStripL_of_ends
    · intro c hc
      rw [show (isoformat d).data = isoformatL d 'T' from rfl, hhead] at hc
      cases hc
      exact digitChar_not_space _ (by omega)
    · intro c hc
      rw [show (isoformat d).data = isoformatL d 'T' from rfl, hlast] at hc
      cases hc
      exact digitChar_not_space _ (by omega)
  have hZ : (isoformatL d 'T').getLast? ≠ some 'Z' := by
    rw [hlast]
    intro hcontra
    injection hcontra with hcc
    exact digitChar_ne_upperZ _ (by omega) hcc
  simp only [dtutil_parse_datetime, hstrip, hZ, if_neg,
    fromisoParse_iso d off htz hv, htz, ite_false, ite_true]
  simp [htz, fromisoParse_iso d off htz hv]


/-! ### C6: the storage round-trip and the startup restore bound -/

theorem mapM_loop_pstr (xs : List String) (accm : List String) :
    List.mapM.loop (fun v => match v with | PyVal.pstr s => some s | _ => none)
      (xs.map PyVal.pstr) accm = some (accm.reverse ++ xs) := by
  induction xs generalizing accm with
  | nil => simp [List.mapM.loop]
  | cons x t ih => simp [List.mapM.loop, ih]

theorem pyStrList_map (xs : List String) : pyStrList (.plist (xs.map .pstr)) = some xs := by
  show List.mapM.loop (fun v => match v with | PyVal.pstr s => some s | _ => none)
    (xs.map PyVal.pstr) [] = some xs
  simpa using mapM_loop_pstr xs []

theorem mapM_loop_pint (xs : List Int) (accm : List Int) :
    List.mapM.loop (fun v => match v with | PyVal.pint n => some n | _ => none)
      (xs.map PyVal.pint) accm = some (accm.reverse ++ xs) := by
  induction xs generalizing accm with
  | nil => simp [List.mapM.loop]
  | cons x t ih => simp [List.mapM.loop, ih]

theorem pyIntList_map (xs : List Int) : pyIntList (.plist (xs.map .pint)) = some xs := by
  show List.mapM.loop (fun v => match v with | PyVal.pint n => some n | _ => none)
    (xs.map PyVal.pint) [] = some xs
  simpa using mapM_loop_pint xs []

theorem from_dict_shape (key label : String) (en rp sn : Bool) (bt : PyDateTime)
    (loc : List String) (nd : List Int) (off : Int) (htz : bt.tz = some off) :
    NormalizedAlarm.from_dict
      [("key", .pstr key), ("label", .pstr label), ("enabled", .pbool en),
       ("repeat", .pbool rp), ("snooze", .pbool sn), ("base_time", .pdt bt),
       ("repeat_days_localized", .plist (loc.map .pstr)),
       ("repeat_days_normalized", .plist (nd.map .pint))] =
      some { key := key, label := label, enabled := en, «repeat» := rp, snooze := sn,
             base_time := bt, repeat_days_localized := loc,
             repeat_days_normalized := nd } := by
  simp [NormalizedAlarm.from_dict, dget, dtutil_parse_datetime, htz, pyStrList_map,
    pyIntList_map, pyValStr, pyFalsy, Bool.not_not]

theorem restoreAlarms_cons (acc : PyDict NormalizedAlarm) (k : String) (a : NormalizedAlarm)
    (rest : List (String × PyVal)) (off : Int) (htz : a.base_time.tz = some off)
    (hv : a.base_time.ValidB = true) (hk : a.key ≠ "") :
    restoreAlarms acc ((k, .pdict a.to_dict) :: rest) = restoreAlarms (dset acc k a) rest := by
  have hbt : restoreDatetime ((dget a.to_dict "base_time").getD .pnone) = some a.base_time := by
    show dtutil_parse_datetime (.pstr (isoformat a.base_time)) = some a.base_time
    exact dtutil_parse_isoformat _ off htz hv
  have hne : a.key.data.isEmpty = false := by
    cases hd : a.key.data with
    | nil => exact absurd (String.ext (show a.key.data = "".data from hd)) hk
    | cons c t => rfl
  have hshape := from_dict_shape a.key a.label a.enabled a.«repeat» a.snooze a.base_time
    a.repeat_days_localized a.repeat_days_normalized off htz
  rw [restoreAlarms]
  simp only [hbt]
  simp [dget, restoreStr, restoreList, restoreBool, hne, hshape, NormalizedAlarm.to_dict]

theorem dset_fresh {β : Type} (acc : PyDict β) (k : String) (v : β)
    (h : ¬ k ∈ dkeys acc) : dset acc k v = acc ++ [(k, v)] := by
  induction acc with
  | nil => rfl
  | cons p rest ih =>
    rcases p with ⟨pk, pv⟩
    simp only [dkeys, List.map_cons, List.mem_cons] at h
    push_neg at h
    have hne2 : ¬ pk = k := fun hc => h.1 hc.symm
    simp only [dset]
    rw [if_neg hne2, ih (by simpa [dkeys] using h.2), List.cons_append]

theorem dkeys_append {β : Type} (l1 l2 : PyDict β) :
    dkeys (l1 ++ l2) = dkeys l1 ++ dkeys l2 := by
  simp [dkeys]

theorem restoreAlarms_map :
    ∀ (alarms : List (String × NormalizedAlarm)) (acc : PyDict NormalizedAlarm),
      (∀ p ∈ alarms, p.2.base_time.tz.isSome = true ∧ p.2.base_time.ValidB = true ∧
        p.2.key ≠ "") →
      (∀ p ∈ alarms, ¬ p.1 ∈ dkeys acc) →
      (dkeys alarms).Nodup →
      restoreAlarms acc (alarms.map fun p => (p.1, .pdict p.2.to_dict)) = acc ++ alarms := by
  intro alarms
  induction alarms with
  | nil =>
    intro acc _ _ _
    simp [restoreAlarms]
  | cons p rest ih =>
    intro acc hval hfresh hnd
    rcases p with ⟨k, a⟩
    obtain ⟨hsome, hvb, hk⟩ := hval _ (List.mem_cons_self _ _)
    obtain ⟨off, hoff⟩ := Option.isSome_iff_exists.mp hsome
    rw [List.map_cons, restoreAlarms_cons acc k a _ off hoff hvb hk]
    have hknotin : ¬ k ∈ dkeys acc := hfresh _ (List.mem_cons_self _ _)
    rw [dset_fresh acc k a hknotin]
    have hndk : ¬ k ∈ dkeys rest := by
      simp only [dkeys, List.map_cons, List.nodup_cons] at hnd
      exact hnd.1
    have hnd2 : (dkeys rest).Nodup := by
      simp only [dkeys, List.map_cons, List.nodup_cons] at hnd
      exact hnd.2
    have hfresh2 : ∀ q ∈ rest, ¬ q.1 ∈ dkeys (acc ++ [(k, a)]) := by
      intro q hq
      rw [dkeys_append]
      intro hmem
      rcases List.mem_append.mp hmem with hmem1 | hmem2
      · exact hfresh q (List.mem_cons_of_mem _ hq) hmem1
      · have hqk : q.1 = k := by simpa [dkeys] using hmem2
        exact hndk (hqk ▸ List.mem_map_of_mem Prod.fst hq)
    rw [ih (acc ++ [(k, a)]) (fun q hq => hval q (List.mem_cons_of_mem _ hq)) hfresh2 hnd2]
    simp

theorem person_state_roundtrip (s : PersonState)
    (hvalid : ∀ p ∈ s.normalized_alarms, p.2.base_time.tz.isSome = true ∧
      p.2.base_time.ValidB = true ∧ p.2.key ≠ "")
    (hnd : (dkeys s.normalized_alarms).Nodup) :
    (PersonState.from_dict s.slug s.as_dict).normalized_alarms = s.normalized_alarms ∧
    (PersonState.from_dict s.slug s.as_dict).next_alarm_key = s.next_alarm_key := by
  constructor
  · have h1 : dget s.as_dict "normalized_alarms" =
        some (.pdict (s.normalized_alarms.map fun p => (p.1, .pdict p.2.to_dict))) := rfl
    show restoreAlarms []
      (restoreMapping ((dget s.as_dict "normalized_alarms").getD .pnone) []) =
      s.normalized_alarms
    rw [h1]
    show restoreAlarms [] (s.normalized_alarms.map fun p => (p.1, .pdict p.2.to_dict)) =
      s.normalized_alarms
    rw [restoreAlarms_map s.normalized_alarms [] hvalid (by simp [dkeys]) hnd]
    simp
  · have h2 : dget s.as_dict "next_alarm_key" = some (optStrVal s.next_alarm_key) := rfl
    show restoreStr ((dget s.as_dict "next_alarm_key").getD .pnone) none = s.next_alarm_key
    rw [h2]
    cases s.next_alarm_key <;> rfl

theorem sched_some_src (alarms : PyDict NormalizedAlarm) (now tz : Int) (k : String)
    (ct : PyDateTime)
    (h : (dget (compute_alarm_schedule alarms now tz) k).getD none = some ct) :
    ∃ a, dget alarms k = some a ∧ compute_single_alarm_next a now tz = some ct := by
  induction alarms with
  | nil => simp [compute_alarm_schedule, dget] at h
  | cons p rest ih =>
    rcases p with ⟨pk, pa⟩
    by_cases hk : pk = k
    · subst hk
      simp only [compute_alarm_schedule, List.map_cons, dget, if_pos rfl,
        Option.getD_some] at h
      exact ⟨pa, by simp [dget], h⟩
    · simp only [compute_alarm_schedule, List.map_cons, dget, if_neg hk] at h
      have hrest := ih (by simpa [compute_alarm_schedule] using h)
      obtain ⟨a, ha, hca⟩ := hrest
      exact ⟨a, by simp [dget, hk, ha], hca⟩

theorem scanNext_gt (alarms : PyDict NormalizedAlarm) (now tz : Int) :
    ∀ (keys : List String) (acc : Option (NormalizedAlarm × PyDateTime)),
      (∀ b u, acc = some (b, u) → now < u.toInstant) →
      ∀ a t, scanNext (compute_alarm_schedule alarms now tz) alarms keys acc = some (a, t) →
        now < t.toInstant := by
  intro keys
  induction keys with
  | nil =>
    intro acc hacc a t h
    exact hacc a t h
  | cons key rest ih =>
    intro acc hacc a t h
    rw [scanNext] at h
    cases hd : (dget (compute_alarm_schedule alarms now tz) key).getD none with
    | none =>
      rw [hd] at h
      exact ih acc hacc a t h
    | some ct =>
      obtain ⟨a0, ha0, hct⟩ := sched_some_src _ _ _ _ _ hd
      have hgt : now < ct.toInstant := compute_single_gt _ _ _ _ hct
      rw [hd] at h
      dsimp only at h
      rw [ha0] at h
      dsimp only at h
      split at h
      · exact ih _ (fun b u heq => by cases heq; exact hgt) a t h
      · exact ih acc hacc a t h

theorem compute_next_gt (alarms : PyDict NormalizedAlarm) (now tz : Int) (t : PyDateTime)
    (h : (compute_next_alarm alarms now tz).next_time = some t) : now < t.toInstant := by
  rw [compute_next_alarm] at h
  dsimp only at h
  cases hb : scanNext (compute_alarm_schedule alarms now tz) alarms
      (insertionSortBy pyStrLe (dkeys alarms)) none with
  | none => rw [hb] at h; cases h
  | some pr =>
    rw [hb] at h
    rcases pr with ⟨a0, t0⟩
    have ht0 : t0 = t := by simpa using h
    subst ht0
    exact scanNext_gt alarms now tz _ none (fun b u heq => by cases heq) a0 t0 hb

theorem loadStorageRestore_bound (s : PersonState) (wallNow tz : Int) (T t : PyDateTime)
    (hT : s.next_alarm_time = some T) (hwall : wallNow ≤ T.toInstant)
    (ht : (loadStorageRestore s wallNow tz).next_alarm_time = some t) :
    T.toInstant - usPerSecond < t.toInstant := by
  rw [loadStorageRestore] at ht
  simp only [scheduleRollover, hT] at ht
  rw [if_pos hwall] at ht
  dsimp only at ht
  exact compute_next_gt _ _ _ _ ht

/-- C6 (amended): for a `PersonState` whose stored alarms have aware and
field-valid base times, non-empty alarm keys and distinct dictionary keys,
serializing through `PersonState.as_dict` and restoring with
`PersonState.from_dict` reproduces `normalized_alarms` and `next_alarm_key`
identically; and the startup restore path, when the stored `next_alarm_time`
is still in the future at restore time, recomputes the schedule from one
second before the stored instant, so any restored `next_alarm_time` lies
strictly after the stored instant minus one second.  (The restored time can
be up to one second earlier than the stored value, refuting the original
"no earlier than the stored original"; see the counterexample.) -/
theorem C6_storage_roundtrip_restore (s : PersonState)
    (hvalid : ∀ p ∈ s.normalized_alarms, p.2.base_time.tz.isSome = true ∧
      p.2.base_time.ValidB = true ∧ p.2.key ≠ "")
    (hnd : (dkeys s.normalized_alarms).Nodup) :
    ((PersonState.from_dict s.slug s.as_dict).normalized_alarms = s.normalized_alarms ∧
      (PersonState.from_dict s.slug s.as_dict).next_alarm_key = s.next_alarm_key) ∧
    (∀ (wallNow tz : Int) (T t : PyDateTime), s.next_alarm_time = some T →
      wallNow ≤ T.toInstant →
      (loadStorageRestore s wallNow tz).next_alarm_time = some t →
      T.toInstant - usPerSecond < t.toInstant) :=
  ⟨person_state_roundtrip s hvalid hnd,
   fun wallNow tz T t hT hwall ht => loadStorageRestore_bound s wallNow tz T t hT hwall ht⟩

/-- Witness for C6: a single-alarm state round-trips exactly, and the restore
recompute at ten seconds before the stored time returns the stored alarm time
itself, within the amended bound. -/
theorem C6_storage_roundtrip_restore_witness :
    ((PersonState.from_dict "p" (PersonState.as_dict
        { slug := "p", person := "p",
          normalized_alarms := [("w",
            { key := "w", label := "W", enabled := true, «repeat» := false,
              snooze := false,
              base_time := ⟨2025, 9, 18, 5, 15, 0, 0, some 7200000000⟩,
              repeat_days_localized := [], repeat_days_normalized := [] })],
          next_alarm_key := some "w",
          next_alarm_time :=
            some ⟨2025, 9, 18, 5, 15, 0, 0, some 7200000000⟩ })).normalized_alarms =
      [("w",
        { key := "w", label := "W", enabled := true, «repeat» := false,
          snooze := false,
          base_time := ⟨2025, 9, 18, 5, 15, 0, 0, some 7200000000⟩,
          repeat_days_localized := [], repeat_days_normalized := [] })] ∧
     (PersonState.from_dict "p" (PersonState.as_dict
        { slug := "p", person := "p",
          normalized_alarms := [("w",
            { key := "w", label := "W", enabled := true, «repeat» := false,
              snooze := false,
              base_time := ⟨2025, 9, 18, 5, 15, 0, 0, some 7200000000⟩,
              repeat_days_localized := [], repeat_days_normalized := [] })],
          next_alarm_key := some "w",
          next_alarm_time :=
            some ⟨2025, 9, 18, 5, 15, 0, 0, some 7200000000⟩ })).next_alarm_key =
      some "w") ∧
    (⟨2025, 9, 18, 5, 15, 0, 0, some 7200000000⟩ : PyDateTime).toInstant - usPerSecond <
      (⟨2025, 9, 18, 5, 15, 0, 0, some 7200000000⟩ : PyDateTime).toInstant :=
  ⟨(C6_storage_roundtrip_restore
      { slug := "p", person := "p",
        normalized_alarms := [("w",
          { key := "w", label := "W", enabled := true, «repeat» := false,
            snooze := false,
            base_time := ⟨2025, 9, 18, 5, 15, 0, 0, some 7200000000⟩,
            repeat_days_localized := [], repeat_days_normalized := [] })],
        next_alarm_key := some "w",
        next_alarm_time := some ⟨2025, 9, 18, 5, 15, 0, 0, some 7200000000⟩ }
      (by decide) (by decide)).1,
   (C6_storage_roundtrip_restore
      { slug := "p", person := "p",
        normalized_alarms := [("w",
          { key := "w", label := "W", enabled := true, «repeat» := false,
            snooze := false,
            base_time := ⟨2025, 9, 18, 5, 15, 0, 0, some 7200000000⟩,
            repeat_days_localized := [], repeat_days_normalized := [] })],
        next_alarm_key := some "w",
        next_alarm_time := some ⟨2025, 9, 18, 5, 15, 0, 0, some 7200000000⟩ }
      (by decide) (by decide)).2 1758165290000000 7200000000
      ⟨2025, 9, 18, 5, 15, 0, 0, some 7200000000⟩
      ⟨2025, 9, 18, 5, 15, 0, 0, some 7200000000⟩
      (by decide) (by decide) (by decide)⟩

/-- C6 counterexample: with two enabled one-shot alarms half a second apart
and the later one stored as the next alarm, restoring while the stored time
is still ten seconds in the future recomputes from one second before the
stored time and selects the other alarm, yielding a restored
`next_alarm_time` strictly earlier than the stored original. -/
theorem C6_restore_earlier_counterexample :
    (loadStorageRestore
        { slug := "p", person := "p",
          normalized_alarms :=
            [("a",
              { key := "a", label := "", enabled := true, «repeat» := false,
                snooze := false,
                base_time := ⟨2025, 9, 17, 20, 30, 0, 0, some 7200000000⟩,
                repeat_days_localized := [], repeat_days_normalized := [] }),
             ("b",
              { key := "b", label := "", enabled := true, «repeat» := false,
                snooze := false,
                base_time := ⟨2025, 9, 17, 20, 29, 59, 500000, some 7200000000⟩,
                repeat_days_localized := [], repeat_days_normalized := [] })],
          next_alarm_key := some "a",
          next_alarm_time := some ⟨2025, 9, 17, 20, 30, 0, 0, some 7200000000⟩ }
        1758133790000000 7200000000).next_alarm_time =
      some ⟨2025, 9, 17, 20, 29, 59, 500000, some 7200000000⟩ ∧
    (1758133790000000 : Int) ≤
      (⟨2025, 9, 17, 20, 30, 0, 0, some 7200000000⟩ : PyDateTime).toInstant ∧
    (⟨2025, 9, 17, 20, 29, 59, 500000, some 7200000000⟩ : PyDateTime).toInstant <
      (⟨2025, 9, 17, 20, 30, 0, 0, some 7200000000⟩ : PyDateTime).toInstant :=
  ⟨by decide, by decide, by decide⟩

theorem daysFromCivil_epoch : daysFromCivil 1970 1 1 = 0 := by decide

theorem daysFromCivil_y2k : daysFromCivil 2000 1 1 = 10957 := by decide

theorem civilFromDays_epoch : civilFromDays 0 = (1970, 1, 1) := by decide

theorem civilFromDays_sample : civilFromDays 20349 = (2025, 9, 18) := by decide

end NextAlarm
